import Mathlib

/-!
Verification development for the dka-calculator-api audit reconciliation and
deduplication engine.

The definitions below are a shallow embedding of the JavaScript source:

* `src/unnamed/part_001` (module `encrypt`): `encryptDataWithAES`, `encrypt`;
* `src/modules/decrypt.js`: `decryptData`, `decryptTable` (phase 1 = the
  calculate-table loop, phase 2 = the update-table loop) and
  `outputStreamlined`.

Conventions used throughout the embedding:

* Database / JavaScript values that the code tests with JavaScript
  truthiness are modelled by the inductive `JVal` (null, boolean, integer,
  string); `truthyJ` is JavaScript truthiness on those values.
* Timestamps are modelled as integers (milliseconds since epoch, the value
  of `Date.prototype.getTime`).  `protocolStartDatetime` is `Option Int`
  with `none` standing for a value on which `new Date(...)` yields an
  invalid date (`isNaN(d.getTime())`).  The JS code compares
  `spanHours = spanMillis / 3600000 <= 24` in double arithmetic; for
  integer millisecond spans this is equivalent to `spanMillis ≤ 86400000`
  (the quotient is exact at the boundary and the double rounding error,
  at most 2⁻⁴⁸ near 24, is far below 1/3600000), which is how the
  comparison is embedded.
* The cryptographic primitives (`crypto.publicEncrypt`/`privateDecrypt`
  with RSA-OAEP(SHA-256), AES-256-GCM via `createCipheriv` /
  `createDecipheriv`, `JSON.stringify`/`JSON.parse` of the payload) are
  external Node.js library calls, not code of this repository.  They are
  embedded as the fields of a `CryptoModel`, and the repository's
  composition of them is proved correct parametrically in that model;
  failure of a primitive (RSA error, GCM tag mismatch, JSON parse error —
  each of which throws in JS and is caught by `decryptData`'s
  `try`/`catch`) is modelled by `Option`.
* The per-row decryption pipeline of `decryptTable`
  (`JSON.parse(encryptedData)` of the stored envelope followed by
  `decryptData`) is abstracted, for the table-level functions, into a
  single parameter `decC`/`decU : String → Option payload`, with `none`
  covering both the parse failure and the decryption failure (both lead
  to `continue`).
-/

/-- A JavaScript value as stored in / read from a database column:
`null`, a boolean, an integer or a string. -/
inductive JVal where
  | null : JVal
  | bool (b : Bool) : JVal
  | num (n : Int) : JVal
  | str (s : String) : JVal
deriving DecidableEq, Repr

/-- JavaScript truthiness of a `JVal`: `null`, `false`, `0` and `""` are
falsy, everything else is truthy. -/
def truthyJ : JVal → Bool
  | JVal.null => false
  | JVal.bool b => b
  | JVal.num n => decide (n ≠ 0)
  | JVal.str s => decide (s ≠ "")

/-- A simple rendering of a `JVal`, standing in for `JSON.stringify` where
the source stringifies a decrypted payload field before storing it. -/
def jstringify : JVal → String
  | JVal.null => "null"
  | JVal.bool true => "true"
  | JVal.bool false => "false"
  | JVal.num n => toString n
  | JVal.str s => s

section EnvelopeCipher

variable (Rec Str Key IVT Cipher Tag Wrapped : Type)

/-- The external cryptographic primitives used by the encrypt / decrypt
modules.  `aesGcmEnc key iv plaintext` returns the ciphertext together
with the GCM authentication tag; `aesGcmDec` returns `none` when the
authentication-tag check fails (JS: `decipher.final` throws);
`rsaOaepWrap` / `rsaOaepUnwrap` are `crypto.publicEncrypt` /
`crypto.privateDecrypt` with OAEP(SHA-256) padding, `none` modelling an
RSA decryption error; `stringify` / `parse` are `JSON.stringify` /
`JSON.parse`, `none` modelling a JSON syntax error. -/
structure CryptoModel where
  stringify : Rec → Str
  parse : Str → Option Rec
  aesGcmEnc : Key → IVT → Str → Cipher × Tag
  aesGcmDec : Key → IVT → Cipher → Tag → Option Str
  rsaOaepWrap : Key → Wrapped
  rsaOaepUnwrap : Wrapped → Option Key

variable {Rec Str Key IVT Cipher Tag Wrapped : Type}

/-- Result of `encryptDataWithAES`: the AES-GCM ciphertext, the fresh AES
key, the IV and the authentication tag (JS object
`{ encrypted, key, iv, authTag }`). -/
structure AESResult (Key IVT Cipher Tag : Type) where
  encrypted : Cipher
  key : Key
  iv : IVT
  authTag : Tag

/-- The four-field envelope produced by `encrypt` (JS object
`{ encryptedData, encryptedKey, iv, authTag }`). -/
structure Envelope (Cipher Wrapped IVT Tag : Type) where
  encryptedData : Cipher
  encryptedKey : Wrapped
  iv : IVT
  authTag : Tag

/-- `encryptDataWithAES(data)` from the encrypt module.  The fresh random
key and IV (`crypto.randomBytes`) are passed explicitly as arguments,
making the randomness consumption of the JS function an explicit input. -/
def encryptDataWithAES (M : CryptoModel Rec Str Key IVT Cipher Tag Wrapped)
    (key : Key) (iv : IVT) (data : Rec) : AESResult Key IVT Cipher Tag :=
  let ct := M.aesGcmEnc key iv (M.stringify data)
  { encrypted := ct.1, key := key, iv := iv, authTag := ct.2 }

/-- `encrypt(data)` from the encrypt module: AES-encrypt the JSON
serialisation of `data`, then wrap the AES key with RSA-OAEP. -/
def encrypt (M : CryptoModel Rec Str Key IVT Cipher Tag Wrapped)
    (key : Key) (iv : IVT) (data : Rec) : Envelope Cipher Wrapped IVT Tag :=
  let e := encryptDataWithAES M key iv data
  { encryptedData := e.encrypted
    encryptedKey := M.rsaOaepWrap e.key
    iv := e.iv
    authTag := e.authTag }

/-- `decryptData(encryptedAESKey, encryptedData, iv, authTag)` from
`src/modules/decrypt.js` lines 38–69: unwrap the AES key with the RSA
private key, AES-GCM-decrypt with the stored IV and authentication tag,
then JSON-parse.  The surrounding `try`/`catch` returns `null` on any
failure; here every failure path yields `none`, so the function is total
and never propagates an exception to the caller. -/
def decryptData (M : CryptoModel Rec Str Key IVT Cipher Tag Wrapped)
    (encryptedAESKey : Wrapped) (encryptedData : Cipher) (iv : IVT)
    (authTag : Tag) : Option Rec :=
  match M.rsaOaepUnwrap encryptedAESKey with
  | none => none
  | some decryptedAESKey =>
    match M.aesGcmDec decryptedAESKey iv encryptedData authTag with
    | none => none
    | some decrypted => M.parse decrypted

end EnvelopeCipher

/-- A concrete executable instance of `CryptoModel` over natural numbers,
used to instantiate the parametric theorems on explicit inputs.  The
"authentication tag" is the whole transcript `(key, iv, ciphertext)`, so
the model has perfect integrity, and key wrapping is the injective map
`k ↦ 2k + 5`. -/
def toyModel : CryptoModel Nat Nat Nat Nat Nat (Nat × Nat × Nat) Nat where
  stringify r := r + 1
  parse s := if 1 ≤ s then some (s - 1) else none
  aesGcmEnc k iv s := (s + k + iv, (k, iv, s + k + iv))
  aesGcmDec k iv c t := if t = (k, iv, c) ∧ k + iv ≤ c then some (c - (k + iv)) else none
  rsaOaepWrap k := 2 * k + 5
  rsaOaepUnwrap w := if 5 ≤ w ∧ (w - 5) % 2 = 0 then some ((w - 5) / 2) else none

/-! ## Data model: table rows -/

/-- A row of the `calculate` table as selected by the phase-1 query of
`decryptTable` (`src/modules/decrypt.js` lines 91–108).  `encryptedData`
is the stored envelope JSON (`none` models SQL `NULL`); the JS falsy
check `if (!encryptedData)` additionally skips the empty string. -/
structure CalcRow where
  id : Nat
  episodeType : String
  auditID : String
  retrospectivePatientHash : JVal
  retrospectiveEpisode : JVal
  appVersion : String
  patientHash : Option String
  legalAgreement : JVal
  region : String
  centre : String
  clientDatetime : JVal
  serverDatetime : Int
  clientUseragent : String
  clientIP : String
  encryptedData : Option String
deriving DecidableEq, Repr

/-- The decrypted clinical payload of a calculate record
(`decryptedObject` in the phase-1 loop).  `protocolStartDatetime` is kept
as parsed milliseconds (`none` = not parseable as a date), since that is
the only use the engine makes of it downstream. -/
structure CalcPayload where
  protocolStartDatetime : Option Int
  patientAge : JVal
  patientSex : JVal
  pH : JVal
  bicarbonate : JVal
  glucose : JVal
  ketones : JVal
  calculations : JVal
  weightLimitOverride : JVal
  use2SD : JVal
  shockPresent : JVal
  insulinRate : JVal
  preExistingDiabetes : JVal
  insulinDeliveryMethod : JVal
  ethnicGroup : JVal
  ethnicSubgroup : JVal
  preventableFactors : JVal
  imdDecile : JVal
deriving DecidableEq, Repr

/-- A row of the `decrypt` table: the 32 columns inserted by phase 1
(lines 164–201) plus the 14 audit columns set by phase 2 (lines 270–295),
which are SQL `NULL` until an update is merged. -/
structure DecryptRow where
  id : Nat
  episodeType : String
  auditID : String
  retrospectivePatientHash : JVal
  retrospectiveEpisode : JVal
  appVersion : String
  patientNumber : Option Nat
  legalAgreement : JVal
  region : String
  centre : String
  clientDatetime : JVal
  serverDatetime : Int
  clientUseragent : String
  clientIP : String
  protocolStartDatetime : Option Int
  patientAge : JVal
  patientSex : JVal
  pH : JVal
  bicarbonate : JVal
  glucose : JVal
  ketones : JVal
  calculations : JVal
  weightLimitOverride : JVal
  use2SD : JVal
  shockPresent : JVal
  insulinRate : JVal
  preExistingDiabetes : JVal
  insulinDeliveryMethod : JVal
  ethnicGroup : JVal
  ethnicSubgroup : JVal
  preventableFactors : JVal
  imdDecile : JVal
  auditTableID : JVal
  auditProtocolEndDatetime : JVal
  auditPreExistingDiabetes : JVal
  auditPreventableFactors : JVal
  auditCerebralOedemaConcern : JVal
  auditCerebralOedemaImaging : JVal
  auditCerebralOedemaTreatment : JVal
  auditServerDatetime : JVal
  auditClientUseragent : JVal
  auditClientIP : JVal
  auditAppVersion : JVal
  auditEthnicGroup : JVal
  auditEthnicSubgroup : JVal
  auditImdDecile : JVal
deriving DecidableEq, Repr

/-- A row of the `update` table as selected by the phase-2 query. -/
structure UpdateRow where
  id : Nat
  auditID : String
  serverDatetime : Int
  clientUseragent : String
  clientIP : String
  appVersion : String
  encryptedData : Option String
deriving DecidableEq, Repr

/-- The `cerebralOedema` sub-object of a decrypted update payload. -/
structure CerebralOedema where
  concern : JVal
  imaging : JVal
  treatment : JVal
deriving DecidableEq, Repr

/-- The decrypted payload of an update record (`decryptedObject` in the
phase-2 loop).  Absent JS fields are modelled as `JVal.null` (the code
normalises them with `?? null` anyway); the optional `cerebralOedema`
sub-object is `Option` because the code accesses it with `?.`. -/
structure UpdatePayload where
  protocolEndDatetime : JVal
  protocolStartDatetime : JVal
  preExistingDiabetes : JVal
  preventableFactors : JVal
  cerebralOedema : Option CerebralOedema
  ethnicGroup : JVal
  ethnicSubgroup : JVal
  imdDecile : JVal
deriving DecidableEq, Repr

/-! ## Phase 1: decrypting the calculate table -/

/-- `patientHashMap.has(k)` on the insertion-ordered association list that
models the JS `Map`. -/
def mapHas : List (String × Nat) → String → Bool
  | [], _ => false
  | p :: m, k => p.1 = k || mapHas m k

/-- `patientHashMap.get(k)`: the value at the first (in a JS `Map`, the
only) entry for `k`. -/
def mapGet : List (String × Nat) → String → Option Nat
  | [], _ => none
  | p :: m, k => if p.1 = k then some p.2 else mapGet m k

/-- `patientHashMap.set(k, v)` for a key not yet present (the only way the
source calls it): a JS `Map` appends the new entry in insertion order. -/
def mapSet (m : List (String × Nat)) (k : String) (v : Nat) : List (String × Nat) :=
  m ++ [(k, v)]

/-- Lines 155–162 of `decrypt.js`: assign a patient number for redaction.
`if (patientHash)` is JS truthiness, so both `null` and the empty string
leave `patientNumber` null; otherwise the hash is given
`patientHashMap.size + 1` on first sight and looked up thereafter. -/
def assignPatientNumber (m : List (String × Nat)) (h : Option String) :
    Option Nat × List (String × Nat) :=
  match h with
  | none => (none, m)
  | some s =>
    if s = "" then (none, m)
    else
      let m2 := if mapHas m s then m else mapSet m s (m.length + 1)
      (mapGet m2 s, m2)

/-- Assemble the `decrypt`-table row inserted by phase 1 (lines 164–201):
plaintext metadata from the calculate row, clinical fields from the
decrypted payload, the assigned patient number, and all audit columns
`NULL`. -/
def mkDecryptRow (r : CalcRow) (p : CalcPayload) (num : Option Nat) : DecryptRow :=
  { id := r.id
    episodeType := r.episodeType
    auditID := r.auditID
    retrospectivePatientHash := r.retrospectivePatientHash
    retrospectiveEpisode := r.retrospectiveEpisode
    appVersion := r.appVersion
    patientNumber := num
    legalAgreement := r.legalAgreement
    region := r.region
    centre := r.centre
    clientDatetime := r.clientDatetime
    serverDatetime := r.serverDatetime
    clientUseragent := r.clientUseragent
    clientIP := r.clientIP
    protocolStartDatetime := p.protocolStartDatetime
    patientAge := p.patientAge
    patientSex := p.patientSex
    pH := p.pH
    bicarbonate := p.bicarbonate
    glucose := p.glucose
    ketones := p.ketones
    calculations := p.calculations
    weightLimitOverride := p.weightLimitOverride
    use2SD := p.use2SD
    shockPresent := p.shockPresent
    insulinRate := p.insulinRate
    preExistingDiabetes := p.preExistingDiabetes
    insulinDeliveryMethod := p.insulinDeliveryMethod
    ethnicGroup := p.ethnicGroup
    ethnicSubgroup := p.ethnicSubgroup
    preventableFactors := p.preventableFactors
    imdDecile := p.imdDecile
    auditTableID := JVal.null
    auditProtocolEndDatetime := JVal.null
    auditPreExistingDiabetes := JVal.null
    auditPreventableFactors := JVal.null
    auditCerebralOedemaConcern := JVal.null
    auditCerebralOedemaImaging := JVal.null
    auditCerebralOedemaTreatment := JVal.null
    auditServerDatetime := JVal.null
    auditClientUseragent := JVal.null
    auditClientIP := JVal.null
    auditAppVersion := JVal.null
    auditEthnicGroup := JVal.null
    auditEthnicSubgroup := JVal.null
    auditImdDecile := JVal.null }

/-- One iteration of the phase-1 loop (lines 110–204).  The state is the
run-scoped `patientHashMap` together with the successfully processed
rows, each kept with its decrypted payload and assigned number.  A row
with falsy `encryptedData`, an unparseable envelope or a failed
decryption is skipped (`continue`); `decC` is the composite
`JSON.parse(encryptedData)` + `decryptData`. -/
def phase1Step (decC : String → Option CalcPayload)
    (st : List (String × Nat) × List (CalcRow × CalcPayload × Option Nat))
    (r : CalcRow) :
    List (String × Nat) × List (CalcRow × CalcPayload × Option Nat) :=
  match r.encryptedData with
  | none => st
  | some s =>
    if s = "" then st
    else
      match decC s with
      | none => st
      | some payload =>
        ((assignPatientNumber st.1 r.patientHash).2,
          st.2 ++ [(r, payload, (assignPatientNumber st.1 r.patientHash).1)])

/-- The whole phase-1 loop over the fetched calculate rows, starting from
an empty run-scoped `patientHashMap`. -/
def phase1Core (decC : String → Option CalcPayload) (rows : List CalcRow) :
    List (String × Nat) × List (CalcRow × CalcPayload × Option Nat) :=
  rows.foldl (phase1Step decC) ([], [])

/-- The rows phase 1 inserts into the `decrypt` table, in insertion
order. -/
def phase1Rows (decC : String → Option CalcPayload) (rows : List CalcRow) :
    List DecryptRow :=
  (phase1Core decC rows).2.map (fun t => mkDecryptRow t.1 t.2.1 t.2.2)

/-- The `WHERE` clause of the phase-1 query (lines 98–106): optional
exact-match filters on `auditID` and `centre`. -/
def phase1Query (decryptID : Option String) (centre : Option String)
    (rows : List CalcRow) : List CalcRow :=
  rows.filter (fun r =>
    (match decryptID with | none => true | some a => decide (r.auditID = a)) &&
    (match centre with | none => true | some c => decide (r.centre = c)))

/-! ## Phase 2: merging the latest update per auditID -/

/-- Merge one decrypted update into a `decrypt`-table row: the `UPDATE`
statement of lines 270–295.  All fourteen audit columns are overwritten.
`auditProtocolEndDatetime` is
`(decryptedObject.protocolEndDatetime || decryptedObject.protocolStartDatetime) ?? null`:
the update's end timestamp when truthy, otherwise its start timestamp;
`preventableFactors` and `cerebralOedema.treatment` are stringified when
truthy, the `cerebralOedema` sub-fields use optional chaining. -/
def mergeRow (r : DecryptRow) (u : UpdateRow) (p : UpdatePayload) : DecryptRow :=
  { r with
    auditTableID := JVal.num (Int.ofNat u.id)
    auditProtocolEndDatetime :=
      if truthyJ p.protocolEndDatetime then p.protocolEndDatetime
      else p.protocolStartDatetime
    auditPreExistingDiabetes := p.preExistingDiabetes
    auditPreventableFactors :=
      if truthyJ p.preventableFactors then JVal.str (jstringify p.preventableFactors)
      else JVal.null
    auditCerebralOedemaConcern :=
      match p.cerebralOedema with
      | none => JVal.null
      | some co => co.concern
    auditCerebralOedemaImaging :=
      match p.cerebralOedema with
      | none => JVal.null
      | some co => co.imaging
    auditCerebralOedemaTreatment :=
      match p.cerebralOedema with
      | none => JVal.null
      | some co =>
        if truthyJ co.treatment then JVal.str (jstringify co.treatment) else JVal.null
    auditServerDatetime := JVal.num u.serverDatetime
    auditClientUseragent := JVal.str u.clientUseragent
    auditClientIP := JVal.str u.clientIP
    auditAppVersion := JVal.str u.appVersion
    auditEthnicGroup := p.ethnicGroup
    auditEthnicSubgroup := p.ethnicSubgroup
    auditImdDecile := p.imdDecile }

/-- The SQL `UPDATE ... WHERE auditID = ?`: every `decrypt`-table row with
the update's `auditID` receives the merged audit columns; a row set that
contains no such `auditID` is left unchanged (the statement simply
affects zero rows). -/
def applyUpdate (tbl : List DecryptRow) (u : UpdateRow) (p : UpdatePayload) :
    List DecryptRow :=
  tbl.map (fun r => if r.auditID = u.auditID then mergeRow r u p else r)

/-- One iteration of the phase-2 loop (lines 232–300): skip on falsy
`encryptedData`, on envelope parse failure or on decryption failure
(`decU` is the composite `JSON.parse(encryptedData)` + `decryptData`),
otherwise run the `UPDATE`. -/
def phase2Step (decU : String → Option UpdatePayload)
    (tbl : List DecryptRow) (u : UpdateRow) : List DecryptRow :=
  match u.encryptedData with
  | none => tbl
  | some s =>
    if s = "" then tbl
    else
      match decU s with
      | none => tbl
      | some p => applyUpdate tbl u p

/-- Whether `u` has the maximum `serverDatetime` among the update rows
with its `auditID`, i.e. whether the pair `(auditID, serverDatetime)`
satisfies the `IN (SELECT auditID, MAX(serverDatetime) ... GROUP BY
auditID)` condition of the phase-2 query. -/
def isLatest (upds : List UpdateRow) (u : UpdateRow) : Bool :=
  upds.all (fun v => !(v.auditID = u.auditID) || decide (v.serverDatetime ≤ u.serverDatetime))

/-- The phase-2 query without an `auditID` filter (lines 207–216): all
update rows carrying the maximum `serverDatetime` for their `auditID`.
When two rows tie on the maximum, both are returned. -/
def latestUpdates (upds : List UpdateRow) : List UpdateRow :=
  upds.filter (isLatest upds)

/-- The phase-2 query (lines 207–230), including the
`WHERE auditID = ? AND serverDatetime = (SELECT MAX(...) WHERE auditID = ?)`
variant used when a `decryptID` filter is present. -/
def phase2Query (decryptID : Option String) (upds : List UpdateRow) :
    List UpdateRow :=
  match decryptID with
  | none => latestUpdates upds
  | some a =>
    let forA := upds.filter (fun u => u.auditID = a)
    forA.filter (isLatest forA)

/-- The whole phase-2 loop over the selected update rows. -/
def phase2Run (decU : String → Option UpdatePayload)
    (upds : List UpdateRow) (tbl : List DecryptRow) : List DecryptRow :=
  upds.foldl (phase2Step decU) tbl

/-- `decryptTable(decryptID, centre, ...)` (lines 79–303): phase 1 inserts
the decrypted calculate rows into the `decrypt` table (plain `INSERT`, an
append to whatever the table already holds), then phase 2 merges the
latest update per `auditID` into every matching row. -/
def decryptTable (decC : String → Option CalcPayload)
    (decU : String → Option UpdatePayload)
    (decryptID : Option String) (centre : Option String)
    (calcs : List CalcRow) (upds : List UpdateRow)
    (tbl : List DecryptRow) : List DecryptRow :=
  phase2Run decU (phase2Query decryptID upds)
    (tbl ++ phase1Rows decC (phase1Query decryptID centre calcs))

/-- The console messages the phase-2 loop can emit for one update row. -/
inductive LogEntry where
  | skipped (id : Nat) : LogEntry
  | updatedOK (auditID : String) : LogEntry
deriving DecidableEq, Repr

/-- The phase-2 loop body again, instrumented with the console output:
each skip is logged with the row id (`console.error`), and
`Successfully decrypted and updated data for auditID ...` is logged after
the `UPDATE` regardless of how many rows it affected. -/
def phase2StepLog (decU : String → Option UpdatePayload)
    (st : List DecryptRow × List LogEntry) (u : UpdateRow) :
    List DecryptRow × List LogEntry :=
  match u.encryptedData with
  | none => (st.1, st.2 ++ [LogEntry.skipped u.id])
  | some s =>
    if s = "" then (st.1, st.2 ++ [LogEntry.skipped u.id])
    else
      match decU s with
      | none => (st.1, st.2 ++ [LogEntry.skipped u.id])
      | some p => (applyUpdate st.1 u p, st.2 ++ [LogEntry.updatedOK u.auditID])

/-- The last update row in `us` (processing order) whose `auditID` matches
`a` and whose envelope decrypts, together with its payload: the update
whose merge survives in the final table state for a row with
`auditID = a`. -/
def lastDecodable (decU : String → Option UpdatePayload) :
    List UpdateRow → String → Option (UpdateRow × UpdatePayload)
  | [], _ => none
  | u :: us, a =>
    match lastDecodable decU us a with
    | some x => some x
    | none =>
      match u.encryptedData with
      | none => none
      | some s =>
        if s = "" then none
        else
          match decU s with
          | none => none
          | some p => if u.auditID = a then some (u, p) else none

/-- The net effect of the phase-2 loop on a single row: the merge of the
last decodable matching update, if any. -/
def rowAfterPhase2 (decU : String → Option UpdatePayload)
    (us : List UpdateRow) (r : DecryptRow) : DecryptRow :=
  match lastDecodable decU us r.auditID with
  | none => r
  | some up => mergeRow r up.1 up.2

/-! ## Streamlining: deduplication, grading and export -/

/-- The parseable episode-start timestamps of a group (line 354–356:
`group.map(row => new Date(row.protocolStartDatetime)).filter(d => !isNaN(d.getTime()))`). -/
def parseableStarts (g : List DecryptRow) : List Int :=
  g.filterMap (fun r => r.protocolStartDatetime)

/-- `Math.min(...)` over a list known to be nonempty (arbitrary at `[]`,
which the code never reaches). -/
def listMin : List Int → Int
  | [] => 0
  | x :: xs => xs.foldl min x

/-- `Math.max(...)` over a list known to be nonempty. -/
def listMax : List Int → Int
  | [] => 0
  | x :: xs => xs.foldl max x

/-- Lines 357–365: `within24` is true when more than one timestamp parses
and the span is at most 24 hours (86400000 ms, the inclusive boundary of
`spanHours <= 24`), or when exactly one timestamp parses; with zero
parseable timestamps it keeps its initial value `false`. -/
def within24 (g : List DecryptRow) : Bool :=
  let ds := parseableStarts g
  if 1 < ds.length then decide (listMax ds - listMin ds ≤ 86400000)
  else decide (ds.length = 1)

/-- The sort comparator of lines 369–377 as a "comes no later than"
relation: records with a non-null `auditTableID` first (strict `!== null`
check), then by `serverDatetime` descending. -/
def rankLE (a b : DecryptRow) : Bool :=
  (decide (¬ a.auditTableID = JVal.null) && decide (b.auditTableID = JVal.null)) ||
  ((decide (a.auditTableID = JVal.null) = decide (b.auditTableID = JVal.null)) &&
    decide (b.serverDatetime ≤ a.serverDatetime))

/-- `rankLE` as a relation, for use with `List.insertionSort`. -/
def rankRel (a b : DecryptRow) : Prop := rankLE a b = true

instance : DecidableRel rankRel := fun a b => by
  unfold rankRel; infer_instance

instance : IsTotal DecryptRow rankRel := by
  constructor
  intro a b
  unfold rankRel rankLE
  by_cases h1 : a.auditTableID = JVal.null <;>
    by_cases h2 : b.auditTableID = JVal.null <;>
      simp [h1, h2] <;> omega

instance : IsTrans DecryptRow rankRel := by
  constructor
  intro a b c
  unfold rankRel rankLE
  by_cases h1 : a.auditTableID = JVal.null <;>
    by_cases h2 : b.auditTableID = JVal.null <;>
      by_cases h3 : c.auditTableID = JVal.null <;>
        simp [h1, h2, h3] <;> omega

/-- `group.sort(comparator)` of lines 369–377.  JavaScript's `sort` is
stable and the comparator induces the total preorder `rankRel`, so any
stable sort by `rankRel` produces the same list; insertion sort is
stable. -/
def sortGroup (g : List DecryptRow) : List DecryptRow :=
  List.insertionSort rankRel g

/-- Lines 348–383: the records of one patient-number group that get
inserted into the streamlined table — the whole group for a singleton or
an over-24-hour (or zero-parseable-timestamp) group, and only the
top-ranked record (`[sorted[0]]`) for a within-window group. -/
def recordsToInsert (g : List DecryptRow) : List DecryptRow :=
  if g.length = 1 then g
  else if within24 g then (sortGroup g).take 1
  else g

/-- A row of the streamlined export table.  The phase-1-only insert for
null-`patientNumber` records (lines 438–464) omits `patientNumber`,
`protocolEndDatetime`, the cerebral-oedema columns and
`deduplicatedAuditIDs`, which therefore stay SQL `NULL`. -/
structure StreamRow where
  dataGrade : String
  patientNumber : Option Nat
  auditID : String
  protocolStartDatetime : Option Int
  protocolEndDatetime : JVal
  patientAge : JVal
  patientSex : JVal
  pH : JVal
  bicarbonate : JVal
  glucose : JVal
  ketones : JVal
  shockPresent : JVal
  insulinRate : JVal
  preExistingDiabetes : JVal
  insulinDeliveryMethod : JVal
  ethnicGroup : JVal
  ethnicSubgroup : JVal
  preventableFactors : JVal
  imdDecile : JVal
  cerebralOedemaConcern : JVal
  cerebralOedemaImaging : JVal
  cerebralOedemaTreatment : JVal
  region : String
  centre : String
  calculations : JVal
  deduplicatedAuditIDs : Option (List String)
deriving DecidableEq, Repr

/-- The streamlined-table insert for a record of a non-null
`patientNumber` group (lines 395–433): grade `A`/`B` by JS truthiness of
`auditTableID`, and `record.auditX ? record.auditX : record.X`
(truthiness again) for the five update-precedence fields. -/
def mkStreamRow (record : DecryptRow) (dd : Option (List String)) : StreamRow :=
  { dataGrade := if truthyJ record.auditTableID then "A" else "B"
    patientNumber := record.patientNumber
    auditID := record.auditID
    protocolStartDatetime := record.protocolStartDatetime
    protocolEndDatetime := record.auditProtocolEndDatetime
    patientAge := record.patientAge
    patientSex := record.patientSex
    pH := record.pH
    bicarbonate := record.bicarbonate
    glucose := record.glucose
    ketones := record.ketones
    shockPresent := record.shockPresent
    insulinRate := record.insulinRate
    preExistingDiabetes :=
      if truthyJ record.auditPreExistingDiabetes then record.auditPreExistingDiabetes
      else record.preExistingDiabetes
    insulinDeliveryMethod := record.insulinDeliveryMethod
    ethnicGroup :=
      if truthyJ record.auditEthnicGroup then record.auditEthnicGroup
      else record.ethnicGroup
    ethnicSubgroup :=
      if truthyJ record.auditEthnicSubgroup then record.auditEthnicSubgroup
      else record.ethnicSubgroup
    preventableFactors :=
      if truthyJ record.auditPreventableFactors then record.auditPreventableFactors
      else record.preventableFactors
    imdDecile :=
      if truthyJ record.auditImdDecile then record.auditImdDecile
      else record.imdDecile
    cerebralOedemaConcern := record.auditCerebralOedemaConcern
    cerebralOedemaImaging := record.auditCerebralOedemaImaging
    cerebralOedemaTreatment := record.auditCerebralOedemaTreatment
    region := record.region
    centre := record.centre
    calculations := record.calculations
    deduplicatedAuditIDs := dd }

/-- The streamlined-table insert for a record with null `patientNumber`
(lines 438–464): grade `C`, calculate-sourced fields only, no
update-precedence. -/
def mkStreamRowC (record : DecryptRow) : StreamRow :=
  { dataGrade := "C"
    patientNumber := none
    auditID := record.auditID
    protocolStartDatetime := record.protocolStartDatetime
    protocolEndDatetime := JVal.null
    patientAge := record.patientAge
    patientSex := record.patientSex
    pH := record.pH
    bicarbonate := record.bicarbonate
    glucose := record.glucose
    ketones := record.ketones
    shockPresent := record.shockPresent
    insulinRate := record.insulinRate
    preExistingDiabetes := record.preExistingDiabetes
    insulinDeliveryMethod := record.insulinDeliveryMethod
    ethnicGroup := record.ethnicGroup
    ethnicSubgroup := record.ethnicSubgroup
    preventableFactors := record.preventableFactors
    imdDecile := record.imdDecile
    cerebralOedemaConcern := JVal.null
    cerebralOedemaImaging := JVal.null
    cerebralOedemaTreatment := JVal.null
    region := record.region
    centre := record.centre
    calculations := record.calculations
    deduplicatedAuditIDs := none }

/-- Lines 386–434: emit the selected records of one group.
`deduplicatedAuditIDs` is non-null exactly when one record stands for a
multi-record group, and then lists the `auditID`s of the (sorted) group
filtered by `auditID !== record.auditID`; the sort has mutated `group` in
place by that point, which is why the filter runs over `sortGroup g`. -/
def emitGroup (g : List DecryptRow) : List StreamRow :=
  let toInsert := recordsToInsert g
  toInsert.map (fun record =>
    let dd : Option (List String) :=
      if toInsert.length = 1 ∧ 1 < g.length then
        some (((sortGroup g).filter
          (fun r0 => !(r0.auditID = record.auditID))).map (fun r0 => r0.auditID))
      else none
    mkStreamRow record dd)

/-- The distinct patient numbers of the non-null rows in ascending order:
`for (const patientNumber in groups)` iterates the integer-like keys of a
JS object in ascending numeric order. -/
def patientNumbersAsc (rows : List DecryptRow) : List Nat :=
  List.insertionSort (fun a b => a ≤ b) (rows.filterMap (fun r => r.patientNumber)).dedup

/-- `outputStreamlined(includeTests)` (lines 315–468): restrict to
`episodeType = 'real'` unless `includeTests`, split off the
null-`patientNumber` rows, group the rest by `patientNumber`, emit each
group through the deduplication logic, then emit every null-patient row
with grade `C`. -/
def outputStreamlined (includeTests : Bool) (rows : List DecryptRow) :
    List StreamRow :=
  let rows := if includeTests then rows else rows.filter (fun r => r.episodeType = "real")
  let nullPatientRows := rows.filter (fun r => r.patientNumber = none)
  let nonNullRows := rows.filter (fun r => !(r.patientNumber = none))
  (patientNumbersAsc nonNullRows).flatMap
      (fun n => emitGroup (nonNullRows.filter (fun r => r.patientNumber = some n)))
    ++ nullPatientRows.map mkStreamRowC

/-- The full `decrypt(decryptID, centre, includeTests, forceLiveTables)`
entry point (lines 478–494): reconcile, then streamline. -/
def decryptJob (decC : String → Option CalcPayload)
    (decU : String → Option UpdatePayload)
    (decryptID : Option String) (centre : Option String) (includeTests : Bool)
    (calcs : List CalcRow) (upds : List UpdateRow)
    (tbl : List DecryptRow) : List StreamRow :=
  outputStreamlined includeTests (decryptTable decC decU decryptID centre calcs upds tbl)

/-! ## Concrete instances used to instantiate the theorems -/

/-- A calculate payload with neutral clinical fields. -/
def payload0 : CalcPayload :=
  { protocolStartDatetime := some 1000
    patientAge := JVal.num 7
    patientSex := JVal.str "male"
    pH := JVal.str "7.1"
    bicarbonate := JVal.null
    glucose := JVal.null
    ketones := JVal.null
    calculations := JVal.null
    weightLimitOverride := JVal.bool false
    use2SD := JVal.bool false
    shockPresent := JVal.bool false
    insulinRate := JVal.num 1
    preExistingDiabetes := JVal.bool true
    insulinDeliveryMethod := JVal.null
    ethnicGroup := JVal.null
    ethnicSubgroup := JVal.null
    preventableFactors := JVal.null
    imdDecile := JVal.null }

/-- A decrypt oracle for calculate envelopes: the stored string `"E"`
decrypts to `payload0`, everything else fails. -/
def decC0 : String → Option CalcPayload :=
  fun s => if s = "E" then some payload0 else none

/-- An update payload with no end timestamp and a false diabetes flag. -/
def upay0 : UpdatePayload :=
  { protocolEndDatetime := JVal.null
    protocolStartDatetime := JVal.str "2025-01-01T14:00:00Z"
    preExistingDiabetes := JVal.bool false
    preventableFactors := JVal.null
    cerebralOedema := some { concern := JVal.bool true, imaging := JVal.null, treatment := JVal.null }
    ethnicGroup := JVal.null
    ethnicSubgroup := JVal.null
    imdDecile := JVal.null }

/-- A decrypt oracle for update envelopes: the stored string `"U"`
decrypts to `upay0`, everything else fails. -/
def decU0 : String → Option UpdatePayload :=
  fun s => if s = "U" then some upay0 else none

/-- A concrete calculate row whose envelope decrypts under `decC0`. -/
def calc0 : CalcRow :=
  { id := 1
    episodeType := "real"
    auditID := "AB12CD"
    retrospectivePatientHash := JVal.null
    retrospectiveEpisode := JVal.bool false
    appVersion := "2.0.0"
    patientHash := some "h1"
    legalAgreement := JVal.bool true
    region := "North"
    centre := "StElsewhere"
    clientDatetime := JVal.str "2025-01-01T10:00:00Z"
    serverDatetime := 100
    clientUseragent := "UA"
    clientIP := "10.0.0.1"
    encryptedData := some "E" }

/-- A concrete update row whose envelope decrypts under `decU0`. -/
def upd0 : UpdateRow :=
  { id := 7
    auditID := "AB12CD"
    serverDatetime := 500
    clientUseragent := "UA2"
    clientIP := "10.0.0.2"
    appVersion := "2.1.0"
    encryptedData := some "U" }

/-- A neutral `decrypt`-table row used as the base for the concrete
examples. -/
def baseDecryptRow : DecryptRow :=
  { id := 0
    episodeType := "real"
    auditID := "A0"
    retrospectivePatientHash := JVal.null
    retrospectiveEpisode := JVal.bool false
    appVersion := "2.0.0"
    patientNumber := some 1
    legalAgreement := JVal.bool true
    region := "North"
    centre := "StElsewhere"
    clientDatetime := JVal.null
    serverDatetime := 0
    clientUseragent := "UA"
    clientIP := "10.0.0.1"
    protocolStartDatetime := none
    patientAge := JVal.num 7
    patientSex := JVal.str "male"
    pH := JVal.str "7.1"
    bicarbonate := JVal.null
    glucose := JVal.null
    ketones := JVal.null
    calculations := JVal.null
    weightLimitOverride := JVal.bool false
    use2SD := JVal.bool false
    shockPresent := JVal.bool false
    insulinRate := JVal.num 1
    preExistingDiabetes := JVal.null
    insulinDeliveryMethod := JVal.null
    ethnicGroup := JVal.null
    ethnicSubgroup := JVal.null
    preventableFactors := JVal.null
    imdDecile := JVal.null
    auditTableID := JVal.null
    auditProtocolEndDatetime := JVal.null
    auditPreExistingDiabetes := JVal.null
    auditPreventableFactors := JVal.null
    auditCerebralOedemaConcern := JVal.null
    auditCerebralOedemaImaging := JVal.null
    auditCerebralOedemaTreatment := JVal.null
    auditServerDatetime := JVal.null
    auditClientUseragent := JVal.null
    auditClientIP := JVal.null
    auditAppVersion := JVal.null
    auditEthnicGroup := JVal.null
    auditEthnicSubgroup := JVal.null
    auditImdDecile := JVal.null }

/-- Two rows of one patient group, neither of whose start timestamps
parses (`new Date(...)` invalid): the case separating the spec's "fewer
than two parseable timestamps" rule from the code. -/
def r4a : DecryptRow := { baseDecryptRow with auditID := "A1", id := 1 }

/-- Second unparseable-timestamp row of the same group. -/
def r4b : DecryptRow := { baseDecryptRow with auditID := "A2", id := 2 }

/-- Two rows of one patient group with start timestamps exactly 24h0m0s
apart (the inclusive window boundary). -/
def r4c : DecryptRow :=
  { baseDecryptRow with auditID := "B1", id := 3, protocolStartDatetime := some 0 }

/-- Second row, 86400000 ms after `r4c`. -/
def r4d : DecryptRow :=
  { baseDecryptRow with auditID := "B2", id := 4, protocolStartDatetime := some 86400000 }

/-- A within-window record with audit data and the older server
timestamp. -/
def r6a : DecryptRow :=
  { baseDecryptRow with
    auditID := "AB12CD", id := 5, auditTableID := JVal.num 7
    serverDatetime := 100, protocolStartDatetime := some 0 }

/-- A within-window record without audit data but a newer server
timestamp. -/
def r6b : DecryptRow :=
  { baseDecryptRow with
    auditID := "EF34GH", id := 6, auditTableID := JVal.null
    serverDatetime := 200, protocolStartDatetime := some 5400000 }

/-- A row whose `auditTableID` is non-null but falsy (the integer 0). -/
def r7 : DecryptRow :=
  { baseDecryptRow with auditID := "C1", id := 7, auditTableID := JVal.num 0 }

/-- A row whose update-sourced diabetes flag is non-null but falsy
(`false`), with a differing calculate-sourced value. -/
def r8 : DecryptRow :=
  { baseDecryptRow with
    auditID := "D1", id := 8
    preExistingDiabetes := JVal.bool true
    auditPreExistingDiabetes := JVal.bool false }

/-- Calculate rows exercising the patient-number assignment: a repeated
hash, a distinct hash and a null hash. -/
def c3a : CalcRow := { calc0 with id := 11, auditID := "H1AAAA", patientHash := some "h1" }

/-- Second row with the same hash as `c3a`. -/
def c3b : CalcRow := { calc0 with id := 12, auditID := "H1BBBB", patientHash := some "h1" }

/-- A row with a distinct hash. -/
def c3c : CalcRow := { calc0 with id := 13, auditID := "H2CCCC", patientHash := some "h2" }

/-- A row with a null hash. -/
def c3d : CalcRow := { calc0 with id := 14, auditID := "H3DDDD", patientHash := none }

/-- A decrypt-table row awaiting the update of `upd0`. -/
def d9 : DecryptRow := { baseDecryptRow with auditID := "AB12CD", id := 9 }

/-- An update row whose `auditID` matches no decrypt-table row. -/
def u10 : UpdateRow := { upd0 with id := 10, auditID := "ZZ99XX" }

/-- The patient-number invariant carried by each processed phase-1 record:
a record with a falsy `patientHash` (null or empty) got a null
`patientNumber`, and a record with a truthy hash `s` got `some v` for an
entry `(s, v)` of the run-scoped `patientHashMap` `m`. -/
def tripleOK (m : List (String × Nat)) (t : CalcRow × CalcPayload × Option Nat) : Prop :=
  (t.1.patientHash = none → t.2.2 = none) ∧
  (t.1.patientHash = some "" → t.2.2 = none) ∧
  (∀ s, t.1.patientHash = some s → ¬ s = "" → ∃ v, t.2.2 = some v ∧ (s, v) ∈ m)

/-! ## Claims about the envelope cipher -/

section CryptoClaims

variable {Rec Str Key IVT Cipher Tag Wrapped : Type}

/-- C1: For every JSON-serializable plaintext record `P`, decrypting the
envelope produced by `encrypt(P)` with the matching private key returns a
record equal to `P`.  Stated parametrically in the external primitives:
whenever RSA-OAEP unwrapping inverts wrapping, AES-256-GCM decryption
inverts encryption with the same key/IV, and `JSON.parse` inverts
`JSON.stringify`, the repository's composition `decryptData ∘ encrypt`
is the identity on records. -/
theorem encrypt_decrypt_roundTrip
    (M : CryptoModel Rec Str Key IVT Cipher Tag Wrapped)
    (key : Key) (iv : IVT) (data : Rec)
    (hWrap : M.rsaOaepUnwrap (M.rsaOaepWrap key) = some key)
    (hAes : ∀ s, M.aesGcmDec key iv (M.aesGcmEnc key iv s).1 (M.aesGcmEnc key iv s).2 = some s)
    (hJson : M.parse (M.stringify data) = some data) :
    decryptData M (encrypt M key iv data).encryptedKey
      (encrypt M key iv data).encryptedData (encrypt M key iv data).iv
      (encrypt M key iv data).authTag = some data := by
  simp only [decryptData, encrypt, encryptDataWithAES, hWrap]
  rw [hAes (M.stringify data)]
  exact hJson

/-- Witness: the round trip evaluated in the concrete `toyModel` at
key 3, IV 4, record 10. -/
theorem encrypt_decrypt_roundTrip_witness :
    decryptData toyModel (encrypt toyModel 3 4 10).encryptedKey
      (encrypt toyModel 3 4 10).encryptedData (encrypt toyModel 3 4 10).iv
      (encrypt toyModel 3 4 10).authTag = some 10 :=
  encrypt_decrypt_roundTrip toyModel 3 4 10 (by decide)
    (fun s => by
      have h : toyModel.aesGcmDec 3 4 (s + 3 + 4) (3, 4, s + 3 + 4) = some s := by
        show (if ((3, 4, s + 3 + 4) : Nat × Nat × Nat) = (3, 4, s + 3 + 4) ∧ 3 + 4 ≤ s + 3 + 4
            then some (s + 3 + 4 - (3 + 4)) else none) = some s
        have harith : s + 3 + 4 - (3 + 4) = s := by omega
        rw [if_pos ⟨rfl, by omega⟩, harith]
      exact h)
    (by decide)

/-- C2: `decryptData` returns a tagged failure (`none`) — it never throws
into the caller and never returns partial plaintext — exactly when the
wrapped AES key fails RSA decryption, the GCM tag check fails, or the
decrypted bytes are not valid JSON; and, under the integrity contract of
the external primitives (RSA-OAEP rejects non-genuine wrappings, wrapping
is injective, a GCM decryption success authenticates the exact
key/IV/ciphertext/tag transcript), any corruption of any one of the four
envelope fields makes decryption fail closed. -/
theorem decrypt_fails_closed
    (M : CryptoModel Rec Str Key IVT Cipher Tag Wrapped)
    (key : Key) (iv : IVT) (data : Rec)
    (hUnwrapGenuine : ∀ w k, M.rsaOaepUnwrap w = some k → w = M.rsaOaepWrap k)
    (hWrapInj : ∀ k k2, M.rsaOaepWrap k = M.rsaOaepWrap k2 → k = k2)
    (hAuth : ∀ k i c t s, M.aesGcmDec k i c t = some s → M.aesGcmEnc k i s = (c, t))
    (hEncInj : ∀ k k2 i i2 s s2,
      M.aesGcmEnc k i s = M.aesGcmEnc k2 i2 s2 → k = k2 ∧ i = i2 ∧ s = s2)
    (hCipherInj : ∀ k i s s2, (M.aesGcmEnc k i s).1 = (M.aesGcmEnc k i s2).1 → s = s2)
    (hTagInj : ∀ k i s s2, (M.aesGcmEnc k i s).2 = (M.aesGcmEnc k i s2).2 → s = s2) :
    (∀ wk c i t, decryptData M wk c i t = none ↔
      (M.rsaOaepUnwrap wk = none ∨
        ∃ k, M.rsaOaepUnwrap wk = some k ∧
          (M.aesGcmDec k i c t = none ∨
            ∃ s, M.aesGcmDec k i c t = some s ∧ M.parse s = none))) ∧
    (∀ wk, ¬ wk = (encrypt M key iv data).encryptedKey →
      decryptData M wk (encrypt M key iv data).encryptedData iv
        (encrypt M key iv data).authTag = none) ∧
    (∀ c, ¬ c = (encrypt M key iv data).encryptedData →
      decryptData M (encrypt M key iv data).encryptedKey c iv
        (encrypt M key iv data).authTag = none) ∧
    (∀ i2, ¬ i2 = iv →
      decryptData M (encrypt M key iv data).encryptedKey
        (encrypt M key iv data).encryptedData i2
        (encrypt M key iv data).authTag = none) ∧
    (∀ t, ¬ t = (encrypt M key iv data).authTag →
      decryptData M (encrypt M key iv data).encryptedKey
        (encrypt M key iv data).encryptedData iv t = none) := by
  have hgen : M.aesGcmEnc key iv (M.stringify data) =
      ((encrypt M key iv data).encryptedData, (encrypt M key iv data).authTag) := rfl
  refine ⟨?_, ?_, ?_, ?_, ?_⟩
  · intro wk c i t
    unfold decryptData
    cases h1 : M.rsaOaepUnwrap wk with
    | none => simp
    | some k =>
      cases h2 : M.aesGcmDec k i c t with
      | none => simp [h2]
      | some s =>
        cases h3 : M.parse s with
        | none => simp [h2, h3]
        | some r => simp [h2, h3]
  · intro wk hwk
    unfold decryptData
    cases h1 : M.rsaOaepUnwrap wk with
    | none => rfl
    | some k2 =>
      cases h2 : M.aesGcmDec k2 iv (encrypt M key iv data).encryptedData
          (encrypt M key iv data).authTag with
      | none => simp only [h2]
      | some s2 =>
        exfalso
        have he := hAuth _ _ _ _ _ h2
        have hinj := hEncInj _ _ _ _ _ _ (he.trans hgen.symm)
        exact hwk (by rw [hUnwrapGenuine _ _ h1, hinj.1]; rfl)
  · intro c hc
    unfold decryptData
    cases h1 : M.rsaOaepUnwrap (encrypt M key iv data).encryptedKey with
    | none => rfl
    | some k2 =>
      have hk2 : key = k2 := hWrapInj _ _ (hUnwrapGenuine _ _ h1)
      subst hk2
      cases h2 : M.aesGcmDec key iv c (encrypt M key iv data).authTag with
      | none => simp only [h2]
      | some s2 =>
        exfalso
        have he := hAuth _ _ _ _ _ h2
        have hs : s2 = M.stringify data := by
          apply hTagInj key iv
          rw [he, hgen]
        rw [hs] at he
        exact hc (congrArg Prod.fst (he.symm.trans hgen))
  · intro i2 hi2
    unfold decryptData
    cases h1 : M.rsaOaepUnwrap (encrypt M key iv data).encryptedKey with
    | none => rfl
    | some k2 =>
      have hk2 : key = k2 := hWrapInj _ _ (hUnwrapGenuine _ _ h1)
      subst hk2
      cases h2 : M.aesGcmDec key i2 (encrypt M key iv data).encryptedData
          (encrypt M key iv data).authTag with
      | none => simp only [h2]
      | some s2 =>
        exfalso
        have he := hAuth _ _ _ _ _ h2
        exact hi2 (hEncInj _ _ _ _ _ _ (he.trans hgen.symm)).2.1
  · intro t ht
    unfold decryptData
    cases h1 : M.rsaOaepUnwrap (encrypt M key iv data).encryptedKey with
    | none => rfl
    | some k2 =>
      have hk2 : key = k2 := hWrapInj _ _ (hUnwrapGenuine _ _ h1)
      subst hk2
      cases h2 : M.aesGcmDec key iv (encrypt M key iv data).encryptedData t with
      | none => simp only [h2]
      | some s2 =>
        exfalso
        have he := hAuth _ _ _ _ _ h2
        have hs : s2 = M.stringify data := by
          apply hCipherInj key iv
          rw [he, hgen]
        rw [hs] at he
        exact ht (congrArg Prod.snd (he.symm.trans hgen))

/-- Witness: in the concrete `toyModel` with key 3, IV 4, record 10, the
genuine envelope is `(encryptedData, encryptedKey, iv, authTag) =
(18, 11, 4, (3,4,18))`, and corrupting each field in turn makes
`decryptData` fail closed. -/
theorem decrypt_fails_closed_witness :
    decryptData toyModel 12 18 4 (3, 4, 18) = none ∧
    decryptData toyModel 11 19 4 (3, 4, 18) = none ∧
    decryptData toyModel 11 18 5 (3, 4, 18) = none ∧
    decryptData toyModel 11 18 4 (3, 4, 19) = none := by
  have h1 : ∀ w k, toyModel.rsaOaepUnwrap w = some k → w = toyModel.rsaOaepWrap k := by
    intro w k h
    show w = 2 * k + 5
    have h' : (if 5 ≤ w ∧ (w - 5) % 2 = 0 then some ((w - 5) / 2) else none) = some k := h
    by_cases hc : 5 ≤ w ∧ (w - 5) % 2 = 0
    · rw [if_pos hc] at h'
      injection h' with h''
      omega
    · rw [if_neg hc] at h'
      exact absurd h' (by simp)
  have h2 : ∀ k k2, toyModel.rsaOaepWrap k = toyModel.rsaOaepWrap k2 → k = k2 := by
    intro k k2 h
    have h' : 2 * k + 5 = 2 * k2 + 5 := h
    omega
  have h3 : ∀ k i c t s, toyModel.aesGcmDec k i c t = some s →
      toyModel.aesGcmEnc k i s = (c, t) := by
    intro k i c t s h
    have h' : (if t = (k, i, c) ∧ k + i ≤ c then some (c - (k + i)) else none) = some s := h
    by_cases hc : t = (k, i, c) ∧ k + i ≤ c
    · rw [if_pos hc] at h'
      injection h' with h''
      have hc1 : s + k + i = c := by omega
      rw [hc.1]
      show ((s + k + i, (k, i, s + k + i)) : Nat × Nat × Nat × Nat) = (c, (k, i, c))
      rw [hc1]
    · rw [if_neg hc] at h'
      exact absurd h' (by simp)
  have h4 : ∀ k k2 i i2 s s2, toyModel.aesGcmEnc k i s = toyModel.aesGcmEnc k2 i2 s2 →
      k = k2 ∧ i = i2 ∧ s = s2 := by
    intro k k2 i i2 s s2 h
    have h' : ((s + k + i, (k, i, s + k + i)) : Nat × Nat × Nat × Nat) =
        (s2 + k2 + i2, (k2, i2, s2 + k2 + i2)) := h
    simp only [Prod.mk.injEq] at h'
    omega
  have h5 : ∀ k i s s2,
      (toyModel.aesGcmEnc k i s).1 = (toyModel.aesGcmEnc k i s2).1 → s = s2 := by
    intro k i s s2 h
    have h' : s + k + i = s2 + k + i := h
    omega
  have h6 : ∀ k i s s2,
      (toyModel.aesGcmEnc k i s).2 = (toyModel.aesGcmEnc k i s2).2 → s = s2 := by
    intro k i s s2 h
    have h' : ((k, i, s + k + i) : Nat × Nat × Nat) = (k, i, s2 + k + i) := h
    simp only [Prod.mk.injEq] at h'
    omega
  have H := decrypt_fails_closed toyModel 3 4 10 h1 h2 h3 h4 h5 h6
  exact ⟨H.2.1 12 (by decide), H.2.2.1 19 (by decide),
    H.2.2.2.1 5 (by decide), H.2.2.2.2 (3, 4, 19) (by decide)⟩

end CryptoClaims

/-! ## Claim C3: patient-number stability -/

theorem mapHas_exists {m : List (String × Nat)} {s : String}
    (h : mapHas m s = true) : ∃ v, mapGet m s = some v ∧ (s, v) ∈ m := by
  induction m with
  | nil => simp [mapHas] at h
  | cons p m ih =>
    by_cases hp : p.1 = s
    · obtain ⟨a, b⟩ := p
      simp only at hp
      subst hp
      exact ⟨b, by simp [mapGet], List.mem_cons_self _ _⟩
    · have h' : mapHas m s = true := by
        simp only [mapHas, Bool.or_eq_true, decide_eq_true_eq] at h
        tauto
      obtain ⟨v, h1, h2⟩ := ih h'
      exact ⟨v, by simp [mapGet, hp, h1], List.mem_cons_of_mem _ h2⟩

theorem mapHas_false_not_mem {m : List (String × Nat)} {s : String}
    (h : mapHas m s = false) : s ∉ m.map Prod.fst := by
  induction m with
  | nil => simp
  | cons p m ih =>
    simp only [mapHas, Bool.or_eq_false_iff, decide_eq_false_iff_not] at h
    simp only [List.map_cons, List.mem_cons]
    rintro (h1 | h1)
    · exact h.1 h1.symm
    · exact ih h.2 h1

theorem mapGet_append_eq {m : List (String × Nat)} {s : String} {v : Nat}
    (h : mapHas m s = false) : mapGet (m ++ [(s, v)]) s = some v := by
  induction m with
  | nil => simp [mapGet]
  | cons p m ih =>
    simp only [mapHas, Bool.or_eq_false_iff, decide_eq_false_iff_not] at h
    simp only [List.cons_append, mapGet, if_neg h.1]
    exact ih h.2

theorem tripleOK_mono {m l : List (String × Nat)} {t : CalcRow × CalcPayload × Option Nat}
    (h : tripleOK m t) : tripleOK (m ++ l) t := by
  obtain ⟨h1, h2, h3⟩ := h
  refine ⟨h1, h2, fun s hs hne => ?_⟩
  obtain ⟨v, hv1, hv2⟩ := h3 s hs hne
  exact ⟨v, hv1, List.mem_append_left _ hv2⟩

theorem assignPatientNumber_none (m : List (String × Nat)) :
    assignPatientNumber m none = (none, m) := rfl

theorem assignPatientNumber_empty (m : List (String × Nat)) :
    assignPatientNumber m (some "") = (none, m) := by
  simp [assignPatientNumber]

theorem assignPatientNumber_has {m : List (String × Nat)} {s : String}
    (hs : ¬ s = "") (h : mapHas m s = true) :
    assignPatientNumber m (some s) = (mapGet m s, m) := by
  simp [assignPatientNumber, hs, h]

theorem assignPatientNumber_new {m : List (String × Nat)} {s : String}
    (hs : ¬ s = "") (h : mapHas m s = false) :
    assignPatientNumber m (some s) =
      (some (m.length + 1), m ++ [(s, m.length + 1)]) := by
  simp [assignPatientNumber, hs, h, mapSet, mapGet_append_eq h]

theorem phase1Step_skip (decC : String → Option CalcPayload)
    (st : List (String × Nat) × List (CalcRow × CalcPayload × Option Nat))
    (r : CalcRow)
    (h : r.encryptedData = none ∨ r.encryptedData = some "" ∨
      ∃ s0, r.encryptedData = some s0 ∧ decC s0 = none) :
    phase1Step decC st r = st := by
  rcases h with h | h | ⟨s0, h1, h2⟩
  · simp [phase1Step, h]
  · simp [phase1Step, h]
  · by_cases hs0 : s0 = ""
    · simp [phase1Step, h1, hs0]
    · simp [phase1Step, h1, hs0, h2]

theorem phase1Step_process (decC : String → Option CalcPayload)
    (st : List (String × Nat) × List (CalcRow × CalcPayload × Option Nat))
    (r : CalcRow) {s0 : String} {payload : CalcPayload}
    (h1 : r.encryptedData = some s0) (h2 : ¬ s0 = "") (h3 : decC s0 = some payload) :
    phase1Step decC st r =
      ((assignPatientNumber st.1 r.patientHash).2,
        st.2 ++ [(r, payload, (assignPatientNumber st.1 r.patientHash).1)]) := by
  simp [phase1Step, h1, h2, h3]

theorem phase1Step_inv (decC : String → Option CalcPayload)
    (st : List (String × Nat) × List (CalcRow × CalcPayload × Option Nat))
    (r : CalcRow)
    (h1 : (st.1.map Prod.fst).Nodup)
    (h2 : st.1.map Prod.snd = List.range' 1 st.1.length)
    (h3 : ∀ t ∈ st.2, tripleOK st.1 t) :
    ((phase1Step decC st r).1.map Prod.fst).Nodup ∧
      (phase1Step decC st r).1.map Prod.snd =
        List.range' 1 (phase1Step decC st r).1.length ∧
      ∀ t ∈ (phase1Step decC st r).2, tripleOK (phase1Step decC st r).1 t := by
  cases hE : r.encryptedData with
  | none =>
    rw [phase1Step_skip decC st r (Or.inl hE)]
    exact ⟨h1, h2, h3⟩
  | some s0 =>
    by_cases hs0 : s0 = ""
    · rw [phase1Step_skip decC st r (Or.inr (Or.inl (hs0 ▸ hE)))]
      exact ⟨h1, h2, h3⟩
    · cases hD : decC s0 with
      | none =>
        rw [phase1Step_skip decC st r (Or.inr (Or.inr ⟨s0, hE, hD⟩))]
        exact ⟨h1, h2, h3⟩
      | some payload =>
        rw [phase1Step_process decC st r hE hs0 hD]
        cases hH : r.patientHash with
        | none =>
          rw [assignPatientNumber_none]
          refine ⟨h1, h2, fun t ht => ?_⟩
          rcases List.mem_append.mp ht with h | h
          · exact h3 t h
          · simp only [List.mem_singleton] at h
            subst h
            exact ⟨fun _ => rfl, fun _ => rfl,
              fun s hsome _ => by rw [hH] at hsome; cases hsome⟩
        | some s =>
          by_cases hs : s = ""
          · subst hs
            rw [assignPatientNumber_empty]
            refine ⟨h1, h2, fun t ht => ?_⟩
            rcases List.mem_append.mp ht with h | h
            · exact h3 t h
            · simp only [List.mem_singleton] at h
              subst h
              refine ⟨fun _ => rfl, fun _ => rfl, fun s' hsome hne => ?_⟩
              rw [hH] at hsome
              injection hsome with hs'
              exact absurd hs'.symm hne
          · cases hHas : mapHas st.1 s with
            | true =>
              rw [assignPatientNumber_has hs hHas]
              refine ⟨h1, h2, fun t ht => ?_⟩
              rcases List.mem_append.mp ht with h | h
              · exact h3 t h
              · simp only [List.mem_singleton] at h
                subst h
                obtain ⟨v, hv1, hv2⟩ := mapHas_exists hHas
                refine ⟨?_, ?_, fun s' hsome hne => ?_⟩
                · intro hc; rw [hH] at hc; cases hc
                · intro hc; rw [hH] at hc; injection hc with hc'; exact absurd hc' hs
                · rw [hH] at hsome
                  injection hsome with hs'
                  subst hs'
                  exact ⟨v, by simpa using hv1, hv2⟩
            | false =>
              rw [assignPatientNumber_new hs hHas]
              refine ⟨?_, ?_, fun t ht => ?_⟩
              · rw [List.map_append]
                refine List.Nodup.append h1 (by simp) ?_
                intro a ha hb
                simp only [List.map_cons, List.map_nil, List.mem_singleton] at hb
                subst hb
                exact mapHas_false_not_mem hHas ha
              · rw [List.map_append, h2, List.length_append]
                simp only [List.map_cons, List.map_nil, List.length_cons, List.length_nil]
                rw [show st.1.length + (0 + 1) = st.1.length + 1 from by omega,
                  List.range'_1_concat]
                congr 1
                rw [Nat.add_comm]
              · rcases List.mem_append.mp ht with h | h
                · exact tripleOK_mono (h3 t h)
                · simp only [List.mem_singleton] at h
                  subst h
                  refine ⟨?_, ?_, fun s' hsome hne => ?_⟩
                  · intro hc; rw [hH] at hc; cases hc
                  · intro hc; rw [hH] at hc; injection hc with hc'; exact absurd hc' hs
                  · rw [hH] at hsome
                    injection hsome with hs'
                    subst hs'
                    exact ⟨st.1.length + 1, rfl,
                      List.mem_append_right _ (by simp)⟩

theorem phase1Core_inv (decC : String → Option CalcPayload) :
    ∀ (rows : List CalcRow)
      (st : List (String × Nat) × List (CalcRow × CalcPayload × Option Nat)),
    (st.1.map Prod.fst).Nodup →
    st.1.map Prod.snd = List.range' 1 st.1.length →
    (∀ t ∈ st.2, tripleOK st.1 t) →
    ((rows.foldl (phase1Step decC) st).1.map Prod.fst).Nodup ∧
      (rows.foldl (phase1Step decC) st).1.map Prod.snd =
        List.range' 1 (rows.foldl (phase1Step decC) st).1.length ∧
      ∀ t ∈ (rows.foldl (phase1Step decC) st).2,
        tripleOK (rows.foldl (phase1Step decC) st).1 t := by
  intro rows
  induction rows with
  | nil => exact fun st h1 h2 h3 => ⟨h1, h2, h3⟩
  | cons r rows ih =>
    intro st h1 h2 h3
    rw [List.foldl_cons]
    obtain ⟨g1, g2, g3⟩ := phase1Step_inv decC st r h1 h2 h3
    exact ih (phase1Step decC st r) g1 g2 g3

/-- C3: Within one run of phase 1, patient-number assignment is a function
of the `patientHash`: among the records phase 1 processes successfully,
equal hashes always receive equal `patientNumber`s, distinct non-null
hashes never receive the same number, and a null hash always yields a
null `patientNumber`.  (A record whose hash is the empty string — falsy
in JS — also gets a null number, which never collides with the positive
number of any non-empty hash.) -/
theorem patientNumber_stable (decC : String → Option CalcPayload) (rows : List CalcRow)
    (t1 t2 : CalcRow × CalcPayload × Option Nat)
    (h1 : t1 ∈ (phase1Core decC rows).2) (h2 : t2 ∈ (phase1Core decC rows).2) :
    (t1.1.patientHash = t2.1.patientHash → t1.2.2 = t2.2.2) ∧
    (∀ a b, t1.1.patientHash = some a → t2.1.patientHash = some b → ¬ a = b →
      ¬ t1.2.2 = t2.2.2) ∧
    (t1.1.patientHash = none → t1.2.2 = none) := by
  have hPC : phase1Core decC rows = rows.foldl (phase1Step decC) ([], []) := rfl
  rw [hPC] at h1 h2
  obtain ⟨hnd, hval, htr⟩ :=
    phase1Core_inv decC rows ([], []) (by simp) (by simp) (by simp)
  have valNodup : ((rows.foldl (phase1Step decC) ([], [])).1.map Prod.snd).Nodup := by
    rw [hval]; simp [List.nodup_range']
  obtain ⟨a1, b1, c1⟩ := htr t1 h1
  obtain ⟨a2, b2, c2⟩ := htr t2 h2
  refine ⟨?_, ?_, a1⟩
  · intro heq
    cases hh : t1.1.patientHash with
    | none =>
      have hh2 : t2.1.patientHash = none := by rw [← heq]; exact hh
      rw [a1 hh, a2 hh2]
    | some s =>
      have hh2 : t2.1.patientHash = some s := by rw [← heq]; exact hh
      by_cases hse : s = ""
      · subst hse
        rw [b1 hh, b2 hh2]
      · obtain ⟨v1, hv1, hm1⟩ := c1 s hh hse
        obtain ⟨v2, hv2, hm2⟩ := c2 s hh2 hse
        have hpair : (s, v1) = (s, v2) :=
          List.inj_on_of_nodup_map hnd hm1 hm2 rfl
        have hv : v1 = v2 := congrArg Prod.snd hpair
        rw [hv1, hv2, hv]
  · intro a b ha hb hab hceq
    by_cases hae : a = ""
    · by_cases hbe : b = ""
      · exact hab (hae.trans hbe.symm)
      · obtain ⟨v2, hv2, _⟩ := c2 b hb hbe
        rw [b1 (by rw [ha, hae]), hv2] at hceq
        cases hceq
    · by_cases hbe : b = ""
      · obtain ⟨v1, hv1, _⟩ := c1 a ha hae
        rw [b2 (by rw [hb, hbe]), hv1] at hceq
        cases hceq
      · obtain ⟨v1, hv1, hm1⟩ := c1 a ha hae
        obtain ⟨v2, hv2, hm2⟩ := c2 b hb hbe
        rw [hv1, hv2] at hceq
        injection hceq with hv
        subst hv
        have hpair : (a, v1) = (b, v1) :=
          List.inj_on_of_nodup_map valNodup hm1 hm2 rfl
        exact hab (congrArg Prod.fst hpair)

/-- Witness: with `decC0` over the four concrete rows, `c3a` and `c3c`
carry the distinct hashes `h1` and `h2` and the theorem yields distinct
patient numbers 1 and 2. -/
theorem patientNumber_stable_witness :
    (c3a, payload0, (some 1 : Option Nat)) ∈ (phase1Core decC0 [c3a, c3b, c3c, c3d]).2 ∧
    (c3c, payload0, (some 2 : Option Nat)) ∈ (phase1Core decC0 [c3a, c3b, c3c, c3d]).2 ∧
    ¬ (some 1 : Option Nat) = (some 2 : Option Nat) := by
  refine ⟨by decide, by decide, ?_⟩
  exact (patientNumber_stable decC0 [c3a, c3b, c3c, c3d]
      (c3a, payload0, some 1) (c3c, payload0, some 2) (by decide) (by decide)).2.1
    "h1" "h2" (by decide) (by decide) (by decide)

/-! ## Claims C9, C10, C5: the update merge and reconciliation -/

theorem mergeRow_auditID (r : DecryptRow) (u : UpdateRow) (p : UpdatePayload) :
    (mergeRow r u p).auditID = r.auditID := rfl

theorem mergeRow_mergeRow (r : DecryptRow) (u u2 : UpdateRow) (p p2 : UpdatePayload) :
    mergeRow (mergeRow r u p) u2 p2 = mergeRow r u2 p2 := rfl

theorem lastDecodable_cons (decU : String → Option UpdatePayload)
    (us : List UpdateRow) (u : UpdateRow) (a : String) :
    lastDecodable decU (u :: us) a =
      match lastDecodable decU us a with
      | some x => some x
      | none =>
        match u.encryptedData with
        | none => none
        | some s =>
          if s = "" then none
          else
            match decU s with
            | none => none
            | some p => if u.auditID = a then some (u, p) else none := rfl

theorem lastDecodable_skip (decU : String → Option UpdatePayload)
    (us : List UpdateRow) (u : UpdateRow) (a : String)
    (h : u.encryptedData = none ∨ u.encryptedData = some "" ∨
      ∃ s, u.encryptedData = some s ∧ ¬ s = "" ∧ decU s = none) :
    lastDecodable decU (u :: us) a = lastDecodable decU us a := by
  rw [lastDecodable_cons]
  cases hl : lastDecodable decU us a with
  | some x => rfl
  | none =>
    rcases h with h | h | ⟨s, h1, h2, h3⟩
    · simp [h]
    · simp [h]
    · simp [h1, h2, h3]

theorem lastDecodable_cons_process (decU : String → Option UpdatePayload)
    (us : List UpdateRow) (u : UpdateRow) (a : String) {s : String} {p : UpdatePayload}
    (h1 : u.encryptedData = some s) (h2 : ¬ s = "") (h3 : decU s = some p) :
    lastDecodable decU (u :: us) a =
      match lastDecodable decU us a with
      | some x => some x
      | none => if u.auditID = a then some (u, p) else none := by
  rw [lastDecodable_cons]
  cases hl : lastDecodable decU us a with
  | some x => rfl
  | none => simp [h1, h2, h3]

theorem phase2Run_eq_map (decU : String → Option UpdatePayload) :
    ∀ (us : List UpdateRow) (tbl : List DecryptRow),
    phase2Run decU us tbl = tbl.map (rowAfterPhase2 decU us) := by
  intro us
  induction us with
  | nil =>
    intro tbl
    show tbl = tbl.map (rowAfterPhase2 decU [])
    have h : ∀ r ∈ tbl, rowAfterPhase2 decU [] r = r := fun r _ => rfl
    rw [List.map_congr_left h]
    simp
  | cons u us ih =>
    intro tbl
    have hrun : phase2Run decU (u :: us) tbl = phase2Run decU us (phase2Step decU tbl u) := rfl
    rw [hrun, ih (phase2Step decU tbl u)]
    cases hE : u.encryptedData with
    | none =>
      have hstep : phase2Step decU tbl u = tbl := by simp [phase2Step, hE]
      rw [hstep]
      apply List.map_congr_left
      intro r _
      unfold rowAfterPhase2
      rw [lastDecodable_skip decU us u r.auditID (Or.inl hE)]
    | some s =>
      by_cases hs : s = ""
      · have hstep : phase2Step decU tbl u = tbl := by simp [phase2Step, hE, hs]
        rw [hstep]
        apply List.map_congr_left
        intro r _
        unfold rowAfterPhase2
        rw [lastDecodable_skip decU us u r.auditID (Or.inr (Or.inl (hs ▸ hE)))]
      · cases hD : decU s with
        | none =>
          have hstep : phase2Step decU tbl u = tbl := by simp [phase2Step, hE, hs, hD]
          rw [hstep]
          apply List.map_congr_left
          intro r _
          unfold rowAfterPhase2
          rw [lastDecodable_skip decU us u r.auditID (Or.inr (Or.inr ⟨s, hE, hs, hD⟩))]
        | some p =>
          have hstep : phase2Step decU tbl u = applyUpdate tbl u p := by
            simp [phase2Step, hE, hs, hD]
          rw [hstep]
          unfold applyUpdate
          rw [List.map_map]
          apply List.map_congr_left
          intro r _
          show rowAfterPhase2 decU us
              (if r.auditID = u.auditID then mergeRow r u p else r) =
            rowAfterPhase2 decU (u :: us) r
          by_cases hr : r.auditID = u.auditID
          · rw [if_pos hr]
            unfold rowAfterPhase2
            rw [mergeRow_auditID,
              lastDecodable_cons_process decU us u r.auditID hE hs hD]
            cases hl : lastDecodable decU us r.auditID with
            | none => simp only [hl, if_pos hr.symm]
            | some x => simp only [hl, mergeRow_mergeRow]
          · rw [if_neg hr]
            unfold rowAfterPhase2
            rw [lastDecodable_cons_process decU us u r.auditID hE hs hD]
            have hcond : ¬ u.auditID = r.auditID := fun hh => hr hh.symm
            cases hl : lastDecodable decU us r.auditID with
            | none => simp only [hl, if_neg hcond]
            | some x => simp only [hl]

theorem lastDecodable_eq_some (decU : String → Option UpdatePayload) :
    ∀ (us : List UpdateRow) (a : String) (u : UpdateRow) (p : UpdatePayload),
    lastDecodable decU us a = some (u, p) →
    u ∈ us ∧ u.auditID = a ∧ ∃ s, u.encryptedData = some s ∧ ¬ s = "" ∧ decU s = some p := by
  intro us
  induction us with
  | nil => intro a u p h; cases h
  | cons v us ih =>
    intro a u p h
    rw [lastDecodable_cons] at h
    cases hl : lastDecodable decU us a with
    | some x =>
      simp only [hl] at h
      injection h with h'
      subst h'
      obtain ⟨hm, ha, hrest⟩ := ih a u p hl
      exact ⟨List.mem_cons_of_mem _ hm, ha, hrest⟩
    | none =>
      simp only [hl] at h
      cases hE : v.encryptedData with
      | none => simp only [hE] at h; exact Option.noConfusion h
      | some s =>
        simp only [hE] at h
        by_cases hs : s = ""
        · rw [if_pos hs] at h; exact Option.noConfusion h
        · rw [if_neg hs] at h
          cases hD : decU s with
          | none => simp only [hD] at h; exact Option.noConfusion h
          | some p2 =>
            simp only [hD] at h
            by_cases ha : v.auditID = a
            · rw [if_pos ha] at h
              injection h with h'
              have hv : v = u := congrArg Prod.fst h'
              have hp : p2 = p := congrArg Prod.snd h'
              subst hv
              subst hp
              exact ⟨List.mem_cons_self _ _, ha, s, hE, hs, hD⟩
            · rw [if_neg ha] at h; exact Option.noConfusion h

theorem latestUpdates_max {upds : List UpdateRow} {u : UpdateRow}
    (h : u ∈ latestUpdates upds) :
    u ∈ upds ∧ ∀ v ∈ upds, v.auditID = u.auditID → v.serverDatetime ≤ u.serverDatetime := by
  obtain ⟨hmem, hfilter⟩ := List.mem_filter.mp h
  refine ⟨hmem, fun v hv hav => ?_⟩
  have h2 := List.all_eq_true.mp hfilter v hv
  simp only [Bool.or_eq_true, Bool.not_eq_true', decide_eq_false_iff_not,
    decide_eq_true_eq] at h2
  rcases h2 with h2 | h2
  · exact absurd hav h2
  · exact h2

/-- C9: For every decrypt-table row, phase 2 merges exactly one update
record: the final row equals the merge of the single latest decodable
update for its `auditID` (unchanged when there is none).  The chosen
update carries the maximum server timestamp among the updates for that
`auditID` (ties resolved deterministically by result order — each tied
row is merged in turn and the last one's fields stand), and the merged
end-of-episode timestamp falls back to the update's start timestamp when
the update carries no (truthy) end timestamp. -/
theorem phase2_merges_latest (decU : String → Option UpdatePayload)
    (tbl : List DecryptRow) (upds : List UpdateRow) (i : Nat) (r : DecryptRow)
    (hi : tbl[i]? = some r) :
    (phase2Run decU (latestUpdates upds) tbl)[i]? =
      some (rowAfterPhase2 decU (latestUpdates upds) r) ∧
    (lastDecodable decU (latestUpdates upds) r.auditID = none →
      rowAfterPhase2 decU (latestUpdates upds) r = r) ∧
    ∀ u p, lastDecodable decU (latestUpdates upds) r.auditID = some (u, p) →
      rowAfterPhase2 decU (latestUpdates upds) r = mergeRow r u p ∧
      u ∈ upds ∧ u.auditID = r.auditID ∧
      (∀ v ∈ upds, v.auditID = u.auditID → v.serverDatetime ≤ u.serverDatetime) ∧
      (mergeRow r u p).auditProtocolEndDatetime =
        (if truthyJ p.protocolEndDatetime then p.protocolEndDatetime
         else p.protocolStartDatetime) := by
  refine ⟨?_, ?_, ?_⟩
  · rw [phase2Run_eq_map, List.getElem?_map, hi]
    rfl
  · intro h
    unfold rowAfterPhase2
    rw [h]
  · intro u p h
    obtain ⟨hmemL, ha, _⟩ := lastDecodable_eq_some decU (latestUpdates upds) r.auditID u p h
    obtain ⟨hmem, hmax⟩ := latestUpdates_max hmemL
    refine ⟨?_, hmem, ha, hmax, rfl⟩
    unfold rowAfterPhase2
    rw [h]

/-- Witness: the single update `upd0` for `AB12CD` is merged into the
decrypt row `d9` by phase 2, and the end-of-episode timestamp falls back
to the update's start timestamp (its end timestamp is null). -/
theorem phase2_merges_latest_witness :
    (phase2Run decU0 (latestUpdates [upd0]) [d9])[0]? =
      some (rowAfterPhase2 decU0 (latestUpdates [upd0]) d9) ∧
    rowAfterPhase2 decU0 (latestUpdates [upd0]) d9 = mergeRow d9 upd0 upay0 ∧
    upd0 ∈ ([upd0] : List UpdateRow) ∧
    (mergeRow d9 upd0 upay0).auditProtocolEndDatetime =
      JVal.str "2025-01-01T14:00:00Z" := by
  have H := phase2_merges_latest decU0 [d9] [upd0] 0 d9 (by decide)
  have H2 := H.2.2 upd0 upay0 (by decide)
  refine ⟨H.1, H2.1, H2.2.1, ?_⟩
  rw [H2.2.2.2.2]
  decide

/-- C10 (implicit): when a selected, successfully decrypted update's
`auditID` matches no row of the decrypt table, the phase-2 merge step is
a silent no-op: the table is unchanged, no error is raised, the row is
still reported as successfully processed in the log, and the batch
continues exactly as if the row were absent. -/
theorem phase2_missing_row_noop (decU : String → Option UpdatePayload)
    (tbl : List DecryptRow) (log : List LogEntry)
    (u : UpdateRow) (s : String) (p : UpdatePayload) (us : List UpdateRow)
    (h1 : u.encryptedData = some s) (h2 : ¬ s = "") (h3 : decU s = some p)
    (h4 : ∀ r ∈ tbl, ¬ r.auditID = u.auditID) :
    phase2StepLog decU (tbl, log) u = (tbl, log ++ [LogEntry.updatedOK u.auditID]) ∧
    (u :: us).foldl (phase2Step decU) tbl = us.foldl (phase2Step decU) tbl := by
  have happ : applyUpdate tbl u p = tbl := by
    unfold applyUpdate
    have hcong : ∀ r ∈ tbl,
        (if r.auditID = u.auditID then mergeRow r u p else r) = r :=
      fun r hr => if_neg (h4 r hr)
    rw [List.map_congr_left hcong]
    simp
  constructor
  · simp [phase2StepLog, h1, h2, h3, happ]
  · rw [List.foldl_cons]
    have hstep : phase2Step decU tbl u = tbl := by
      simp [phase2Step, h1, h2, h3, happ]
    rw [hstep]

/-- Witness: the update `u10` for the unknown `auditID` `ZZ99XX` leaves
the one-row table `[d9]` unchanged while logging success. -/
theorem phase2_missing_row_noop_witness :
    phase2StepLog decU0 ([d9], []) u10 =
      ([d9], [LogEntry.updatedOK "ZZ99XX"]) ∧
    [u10].foldl (phase2Step decU0) [d9] = [].foldl (phase2Step decU0) [d9] :=
  phase2_missing_row_noop decU0 [d9] [] u10 "U" upay0 []
    (by decide) (by decide) (by decide) (by decide)

theorem rowAfterPhase2_idem (decU : String → Option UpdatePayload)
    (us : List UpdateRow) (r : DecryptRow) :
    rowAfterPhase2 decU us (rowAfterPhase2 decU us r) = rowAfterPhase2 decU us r := by
  have hdef : ∀ x : DecryptRow, rowAfterPhase2 decU us x =
      match lastDecodable decU us x.auditID with
      | none => x
      | some up => mergeRow x up.1 up.2 := fun x => rfl
  have hA : (rowAfterPhase2 decU us r).auditID = r.auditID := by
    rw [hdef r]
    cases h : lastDecodable decU us r.auditID with
    | none => simp only [h]
    | some x => simp only [h, mergeRow_auditID]
  rw [hdef (rowAfterPhase2 decU us r), hA]
  cases h : lastDecodable decU us r.auditID with
  | none => simp only [h]
  | some x =>
    simp only [h, hdef r, mergeRow_mergeRow]

/-- C5 counterexample: reconciliation is not idempotent.  Running
`decryptTable` a second time over the unchanged single calculate record
`calc0` (no updates) inserts a second copy of the decrypted row: the
stored state after two runs differs from the state after one (two rows
instead of one). -/
theorem reconcile_not_idempotent_cex :
    ¬ decryptTable decC0 decU0 none none [calc0] []
        (decryptTable decC0 decU0 none none [calc0] [] []) =
      decryptTable decC0 decU0 none none [calc0] [] [] ∧
    (decryptTable decC0 decU0 none none [calc0] [] []).length = 1 ∧
    (decryptTable decC0 decU0 none none [calc0] []
        (decryptTable decC0 decU0 none none [calc0] [] [])).length = 2 := by
  refine ⟨fun h => ?_, rfl, rfl⟩
  have hlen := congrArg List.length h
  rw [show (decryptTable decC0 decU0 none none [calc0] []
      (decryptTable decC0 decU0 none none [calc0] [] [])).length = 2 from rfl,
    show (decryptTable decC0 decU0 none none [calc0] [] []).length = 1 from rfl] at hlen
  exact absurd hlen (by decide)

/-- C5 (amended): running reconciliation twice on an unchanged input set
is not a no-op — phase 1 uses a plain `INSERT`, so the second run appends
another copy of every successfully decrypted calculate row (with phase-2
merges applied identically — the appended block equals a fresh run on an
empty table); re-running phase 2 alone on an unchanged table is a no-op
(the `UPDATE` sets the same values again). -/
theorem reconcile_second_run_appends (decC : String → Option CalcPayload)
    (decU : String → Option UpdatePayload) (did cen : Option String)
    (calcs : List CalcRow) (upds : List UpdateRow) (tbl : List DecryptRow) :
    decryptTable decC decU did cen calcs upds
        (decryptTable decC decU did cen calcs upds tbl)
      = decryptTable decC decU did cen calcs upds tbl
        ++ decryptTable decC decU did cen calcs upds [] ∧
    phase2Run decU (phase2Query did upds)
        (phase2Run decU (phase2Query did upds) tbl)
      = phase2Run decU (phase2Query did upds) tbl := by
  have hmap := phase2Run_eq_map decU (phase2Query did upds)
  have hmapidem : ∀ l : List DecryptRow,
      (l.map (rowAfterPhase2 decU (phase2Query did upds))).map
          (rowAfterPhase2 decU (phase2Query did upds)) =
        l.map (rowAfterPhase2 decU (phase2Query did upds)) := by
    intro l
    rw [List.map_map]
    exact List.map_congr_left (fun r _ => rowAfterPhase2_idem decU (phase2Query did upds) r)
  constructor
  · unfold decryptTable
    rw [hmap, hmap, hmap, List.nil_append, List.map_append, hmapidem, List.map_append]
  · rw [hmap, hmap, hmapidem]

/-! ## Claims C4, C6, C7, C8: streamlining -/

theorem recordsToInsert_subset (g : List DecryptRow) :
    ∀ r ∈ recordsToInsert g, r ∈ g := by
  intro r hr
  unfold recordsToInsert at hr
  split at hr
  · exact hr
  · split at hr
    · exact (List.perm_insertionSort rankRel g).mem_iff.mp
        (List.mem_of_mem_take hr)
    · exact hr

/-- C4 counterexample: a two-record group in which no start timestamp
parses (`datetimes.length === 0`) is NOT collapsed — both records are
emitted individually — although the claim's "fewer than two parseable
timestamps" clause requires it to be collapsed to a single record. -/
theorem dedup_window_cex :
    (parseableStarts [r4a, r4b]).length < 2 ∧
    1 < ([r4a, r4b] : List DecryptRow).length ∧
    ¬ (recordsToInsert [r4a, r4b]).length = 1 ∧
    recordsToInsert [r4a, r4b] = [r4a, r4b] := by
  decide

/-- C4 (amended): a group of more than one record is collapsed to a
single emitted record iff at least two start timestamps parse and their
span is at most 24 hours (86400000 ms, inclusive: exactly 24h0m0s
collapses, 24h0m1s does not), or exactly one start timestamp parses;
groups with zero parseable timestamps, like groups spanning more than 24
hours, have every record emitted individually. -/
theorem dedup_window_amended (g : List DecryptRow) (hg : 1 < g.length) :
    ((recordsToInsert g).length = 1 ↔
      (1 < (parseableStarts g).length ∧
        listMax (parseableStarts g) - listMin (parseableStarts g) ≤ 86400000) ∨
      (parseableStarts g).length = 1) ∧
    (within24 g = false → recordsToInsert g = g) := by
  have hne : ¬ g.length = 1 := by omega
  constructor
  · unfold recordsToInsert
    rw [if_neg hne]
    cases hw : within24 g with
    | true =>
      rw [if_pos rfl]
      have hlen : (sortGroup g).length = g.length :=
        (List.perm_insertionSort rankRel g).length_eq
      have htake : ((sortGroup g).take 1).length = 1 := by
        rw [List.length_take, hlen]
        omega
      unfold within24 at hw
      by_cases hds : 1 < (parseableStarts g).length
      · rw [if_pos hds] at hw
        exact ⟨fun _ => Or.inl ⟨hds, by simpa using hw⟩, fun _ => htake⟩
      · rw [if_neg hds] at hw
        exact ⟨fun _ => Or.inr (by simpa using hw), fun _ => htake⟩
    | false =>
      rw [if_neg (by simp)]
      unfold within24 at hw
      by_cases hds : 1 < (parseableStarts g).length
      · rw [if_pos hds] at hw
        refine iff_of_false hne ?_
        rintro (⟨_, hspan⟩ | hone)
        · exact absurd hspan (by simpa using hw)
        · omega
      · rw [if_neg hds] at hw
        refine iff_of_false hne ?_
        rintro (⟨h1, _⟩ | hone)
        · exact hds h1
        · exact absurd hone (by simpa using hw)
  · intro hfalse
    unfold recordsToInsert
    rw [if_neg hne, if_neg (by simp [hfalse])]

/-- Witness: two records whose start timestamps are exactly 24h0m0s apart
collapse to a single emitted record (inclusive boundary). -/
theorem dedup_window_amended_witness :
    1 < ([r4c, r4d] : List DecryptRow).length ∧
    (recordsToInsert [r4c, r4d]).length = 1 := by
  refine ⟨by decide, ?_⟩
  exact ((dedup_window_amended [r4c, r4d] (by decide)).1).mpr
    (Or.inl ⟨by decide, by decide⟩)

theorem rankLE_refl (a : DecryptRow) : rankLE a a = true := by
  unfold rankLE
  by_cases h : a.auditTableID = JVal.null <;> simp [h]

theorem map_auditID_filter (l : List DecryptRow) (a : String) :
    (l.filter (fun r0 => !(r0.auditID = a))).map (fun r0 => r0.auditID) =
      (l.map (fun r0 => r0.auditID)).filter (fun x => !(x = a)) := by
  induction l with
  | nil => rfl
  | cons r l ih =>
    by_cases hr : r.auditID = a
    · simp [hr, ih]
    · simp [hr, ih]

theorem filter_eq_key_singleton {g : List DecryptRow} {best : DecryptRow}
    (hnd : (g.map (fun r => r.auditID)).Nodup) (hb : best ∈ g) :
    g.filter (fun r => r.auditID = best.auditID) = [best] := by
  induction g with
  | nil => cases hb
  | cons r g ih =>
    rw [List.map_cons, List.nodup_cons] at hnd
    rcases List.mem_cons.mp hb with hb | hb
    · subst hb
      rw [List.filter_cons_of_pos (by simp)]
      have hnil : g.filter (fun r => decide (r.auditID = best.auditID)) = [] := by
        rw [List.filter_eq_nil_iff]
        intro x hx
        simp only [decide_eq_true_eq]
        exact fun he => hnd.1 (he ▸ List.mem_map_of_mem _ hx)
      rw [hnil]
    · have hr : ¬ r.auditID = best.auditID :=
        fun he => hnd.1 (he ▸ List.mem_map_of_mem _ hb)
      rw [List.filter_cons_of_neg (by simp [hr])]
      exact ih hnd.2 hb

/-- C6: when a within-window multi-record group is collapsed, the single
emitted record `best` is maximal in the group under the comparator
(non-null `auditTableID` first, then server timestamp descending) — so a
record with audit data beats one without even if the latter is newer —
and the emitted streamlined row carries `deduplicatedAuditIDs` listing
the `auditID`s of exactly the other records of the group (the records
whose `auditID` differs from the emitted one, which under the data-model
invariant that `auditID`s are unique within the group are precisely the
records other than `best`). -/
theorem dedup_pick_best (g : List DecryptRow) (hg : 1 < g.length)
    (hw : within24 g = true) (hnd : (g.map (fun r => r.auditID)).Nodup) :
    ∃ best, best ∈ g ∧ (∀ r ∈ g, rankLE best r = true) ∧
      emitGroup g =
        [mkStreamRow best
          (some (((sortGroup g).filter
            (fun r0 => !(r0.auditID = best.auditID))).map (fun r0 => r0.auditID)))] ∧
      (((sortGroup g).filter
          (fun r0 => !(r0.auditID = best.auditID))).map (fun r0 => r0.auditID)).Perm
        ((g.map (fun r0 => r0.auditID)).filter (fun x => !(x = best.auditID))) ∧
      g.filter (fun r => r.auditID = best.auditID) = [best] := by
  have hperm : (sortGroup g).Perm g := List.perm_insertionSort rankRel g
  have hlen : (sortGroup g).length = g.length := hperm.length_eq
  obtain ⟨best, tail, hS⟩ : ∃ best tail, sortGroup g = best :: tail := by
    cases h : sortGroup g with
    | nil =>
      exfalso
      rw [h] at hlen
      simp at hlen
      omega
    | cons b t => exact ⟨b, t, rfl⟩
  have hbest : best ∈ g := hperm.mem_iff.mp (hS ▸ List.mem_cons_self _ _)
  have hsorted : List.Sorted rankRel (best :: tail) := by
    rw [← hS]
    exact List.sorted_insertionSort rankRel g
  have hmax : ∀ r ∈ g, rankLE best r = true := by
    intro r hr
    have hr2 : r ∈ best :: tail := hS ▸ hperm.mem_iff.mpr hr
    rcases List.mem_cons.mp hr2 with hr2 | hr2
    · subst hr2; exact rankLE_refl r
    · exact (List.sorted_cons.mp hsorted).1 r hr2
  have hne : ¬ g.length = 1 := by omega
  have hrec : recordsToInsert g = [best] := by
    unfold recordsToInsert
    rw [if_neg hne, if_pos hw, hS]
    simp
  refine ⟨best, hbest, hmax, ?_, ?_, filter_eq_key_singleton hnd hbest⟩
  · unfold emitGroup
    rw [hrec]
    simp only [List.map_cons, List.map_nil]
    rw [if_pos (show ([best] : List DecryptRow).length = 1 ∧ 1 < g.length from ⟨rfl, hg⟩)]
  · have h1 := (hperm.filter (fun r0 => !(r0.auditID = best.auditID))).map
      (fun r0 => r0.auditID)
    rw [map_auditID_filter g best.auditID] at h1
    exact h1

/-- Witness: in the group `[r6a, r6b]` — `r6a` has audit data and the
older server timestamp, `r6b` has no audit data and the newer one — the
record with audit data is emitted, with the other record's `auditID` as
`deduplicatedAuditIDs`. -/
theorem dedup_pick_best_witness :
    (∃ best, best ∈ ([r6a, r6b] : List DecryptRow) ∧
      (∀ r ∈ ([r6a, r6b] : List DecryptRow), rankLE best r = true) ∧
      emitGroup [r6a, r6b] =
        [mkStreamRow best
          (some (((sortGroup [r6a, r6b]).filter
            (fun r0 => !(r0.auditID = best.auditID))).map (fun r0 => r0.auditID)))] ∧
      (((sortGroup [r6a, r6b]).filter
          (fun r0 => !(r0.auditID = best.auditID))).map (fun r0 => r0.auditID)).Perm
        (([r6a, r6b].map (fun r0 => r0.auditID)).filter
          (fun x => !(x = best.auditID))) ∧
      [r6a, r6b].filter (fun r => r.auditID = best.auditID) = [best]) ∧
    rankLE r6a r6b = true ∧ ¬ rankLE r6b r6a = true ∧
    r6b.serverDatetime > r6a.serverDatetime :=
  ⟨dedup_pick_best [r6a, r6b] (by decide) (by decide) (by decide),
    by decide, by decide, by decide⟩

theorem output_mem_src (includeTests : Bool) (rows : List DecryptRow)
    (s : StreamRow) (hs : s ∈ outputStreamlined includeTests rows) :
    (∃ r, r ∈ rows ∧ ¬ r.patientNumber = none ∧ ∃ dd, s = mkStreamRow r dd) ∨
    (∃ r, r ∈ rows ∧ r.patientNumber = none ∧ s = mkStreamRowC r) := by
  simp only [outputStreamlined] at hs
  rcases List.mem_append.mp hs with hs | hs
  · left
    obtain ⟨n, hn, hsg⟩ := List.mem_flatMap.mp hs
    simp only [emitGroup] at hsg
    obtain ⟨record, hrec, hmk⟩ := List.mem_map.mp hsg
    have hrecg := recordsToInsert_subset _ record hrec
    have h1 := List.mem_filter.mp hrecg
    have h2 := List.mem_filter.mp h1.1
    have hrows : record ∈ rows := by
      rcases hit : includeTests with _ | _
      · rw [hit] at h2
        simp only [if_neg (Bool.false_ne_true)] at h2
        exact List.mem_of_mem_filter h2.1
      · rw [hit] at h2
        simp only [if_pos rfl] at h2
        exact h2.1
    have hpn : ¬ record.patientNumber = none := by
      have := h2.2
      simpa using this
    exact ⟨record, hrows, hpn, _, hmk.symm⟩
  · right
    obtain ⟨r, hr, hmk⟩ := List.mem_map.mp hs
    have h2 := List.mem_filter.mp hr
    have hrows : r ∈ rows := by
      rcases hit : includeTests with _ | _
      · rw [hit] at h2
        simp only [if_neg (Bool.false_ne_true)] at h2
        exact List.mem_of_mem_filter h2.1
      · rw [hit] at h2
        simp only [if_pos rfl] at h2
        exact h2.1
    have hpn : r.patientNumber = none := by
      have := h2.2
      simpa using this
    exact ⟨r, hrows, hpn, hmk.symm⟩

/-- C7 counterexample: the grading uses JS truthiness, not a null check.
The row `r7` has a non-null `auditTableID` (the integer 0, falsy) and a
non-null `patientNumber`, yet its emitted streamlined record is graded
`B`, where the claim requires `A` for every non-null `auditTableID`. -/
theorem grading_cex :
    r7.patientNumber = some 1 ∧
    ¬ r7.auditTableID = JVal.null ∧
    (outputStreamlined true [r7]).map (fun s => s.dataGrade) = ["B"] := by
  refine ⟨rfl, by decide, ?_⟩
  decide

/-- C7 (amended): every emitted streamlined record is graded from its
source decrypt row as `C` when `patientNumber` is null (regardless of
`auditTableID`), else `A` when `auditTableID` is truthy (non-null and
non-zero) and `B` otherwise — so a non-null but falsy `auditTableID`
(integer 0) grades `B`, not `A`. -/
theorem grading_amended (includeTests : Bool) (rows : List DecryptRow)
    (s : StreamRow) (hs : s ∈ outputStreamlined includeTests rows) :
    ∃ r, r ∈ rows ∧ s.auditID = r.auditID ∧ s.patientNumber = r.patientNumber ∧
      s.dataGrade = (if r.patientNumber = none then "C"
        else if truthyJ r.auditTableID then "A" else "B") := by
  rcases output_mem_src includeTests rows s hs with
    ⟨r, hr, hpn, dd, rfl⟩ | ⟨r, hr, hpn, rfl⟩
  · exact ⟨r, hr, rfl, rfl, by rw [if_neg hpn]; rfl⟩
  · exact ⟨r, hr, rfl, by rw [hpn]; rfl, by rw [if_pos hpn]; rfl⟩

/-- Witness: the emitted record of the one-row table `[r7]` is graded by
the truthiness rule. -/
theorem grading_amended_witness :
    mkStreamRow r7 none ∈ outputStreamlined true [r7] ∧
    ∃ r, r ∈ ([r7] : List DecryptRow) ∧
      (mkStreamRow r7 none).auditID = r.auditID ∧
      (mkStreamRow r7 none).patientNumber = r.patientNumber ∧
      (mkStreamRow r7 none).dataGrade =
        (if r.patientNumber = none then "C"
         else if truthyJ r.auditTableID then "A" else "B") := by
  refine ⟨by decide, ?_⟩
  exact grading_amended true [r7] (mkStreamRow r7 none) (by decide)

/-- C8 counterexample: field precedence uses JS truthiness, not a null
check.  The row `r8` carries the update-sourced diabetes flag `false`
(non-null but falsy) and the calculate-sourced flag `true`; the emitted
record exports `true` — the calculate-sourced value — where the claim
requires the non-null update-sourced `false` to win. -/
theorem precedence_cex :
    ¬ r8.auditPreExistingDiabetes = JVal.null ∧
    r8.auditPreExistingDiabetes = JVal.bool false ∧
    r8.preExistingDiabetes = JVal.bool true ∧
    (outputStreamlined true [r8]).map (fun s => s.preExistingDiabetes) =
      [JVal.bool true] := by
  refine ⟨by decide, rfl, rfl, ?_⟩
  decide

/-- C8 (amended): for every emitted streamlined record drawn from a
non-null-`patientNumber` group, each of the five shared fields exports
the update-sourced value when that value is truthy (non-null, non-zero,
non-empty, non-false) and the calculate-sourced value otherwise; records
with a null `patientNumber` export the calculate-sourced values
unchanged, with no field-level precedence. -/
theorem precedence_amended (includeTests : Bool) (rows : List DecryptRow)
    (s : StreamRow) (hs : s ∈ outputStreamlined includeTests rows) :
    ∃ r, r ∈ rows ∧ s.auditID = r.auditID ∧
      (¬ r.patientNumber = none →
        s.preExistingDiabetes =
          (if truthyJ r.auditPreExistingDiabetes then r.auditPreExistingDiabetes
           else r.preExistingDiabetes) ∧
        s.ethnicGroup =
          (if truthyJ r.auditEthnicGroup then r.auditEthnicGroup else r.ethnicGroup) ∧
        s.ethnicSubgroup =
          (if truthyJ r.auditEthnicSubgroup then r.auditEthnicSubgroup
           else r.ethnicSubgroup) ∧
        s.preventableFactors =
          (if truthyJ r.auditPreventableFactors then r.auditPreventableFactors
           else r.preventableFactors) ∧
        s.imdDecile =
          (if truthyJ r.auditImdDecile then r.auditImdDecile else r.imdDecile)) ∧
      (r.patientNumber = none →
        s.preExistingDiabetes = r.preExistingDiabetes ∧
        s.ethnicGroup = r.ethnicGroup ∧
        s.ethnicSubgroup = r.ethnicSubgroup ∧
        s.preventableFactors = r.preventableFactors ∧
        s.imdDecile = r.imdDecile) := by
  rcases output_mem_src includeTests rows s hs with
    ⟨r, hr, hpn, dd, rfl⟩ | ⟨r, hr, hpn, rfl⟩
  · exact ⟨r, hr, rfl, fun _ => ⟨rfl, rfl, rfl, rfl, rfl⟩,
      fun hc => absurd hc hpn⟩
  · exact ⟨r, hr, rfl, fun hc => absurd hpn hc,
      fun _ => ⟨rfl, rfl, rfl, rfl, rfl⟩⟩

/-- Witness: the emitted record of the one-row table `[r8]` follows the
truthiness precedence rule. -/
theorem precedence_amended_witness :
    mkStreamRow r8 none ∈ outputStreamlined true [r8] ∧
    ∃ r, r ∈ ([r8] : List DecryptRow) ∧
      (mkStreamRow r8 none).auditID = r.auditID ∧
      (¬ r.patientNumber = none →
        (mkStreamRow r8 none).preExistingDiabetes =
          (if truthyJ r.auditPreExistingDiabetes then r.auditPreExistingDiabetes
           else r.preExistingDiabetes) ∧
        (mkStreamRow r8 none).ethnicGroup =
          (if truthyJ r.auditEthnicGroup then r.auditEthnicGroup else r.ethnicGroup) ∧
        (mkStreamRow r8 none).ethnicSubgroup =
          (if truthyJ r.auditEthnicSubgroup then r.auditEthnicSubgroup
           else r.ethnicSubgroup) ∧
        (mkStreamRow r8 none).preventableFactors =
          (if truthyJ r.auditPreventableFactors then r.auditPreventableFactors
           else r.preventableFactors) ∧
        (mkStreamRow r8 none).imdDecile =
          (if truthyJ r.auditImdDecile then r.auditImdDecile else r.imdDecile)) ∧
      (r.patientNumber = none →
        (mkStreamRow r8 none).preExistingDiabetes = r.preExistingDiabetes ∧
        (mkStreamRow r8 none).ethnicGroup = r.ethnicGroup ∧
        (mkStreamRow r8 none).ethnicSubgroup = r.ethnicSubgroup ∧
        (mkStreamRow r8 none).preventableFactors = r.preventableFactors ∧
        (mkStreamRow r8 none).imdDecile = r.imdDecile) := by
  refine ⟨by decide, ?_⟩
  exact precedence_amended true [r8] (mkStreamRow r8 none) (by decide)
